import Mathlib

/-!
Verification of the MYGA-Scraper repository specification.

This development shallowly embeds the data-handling core of the scraper:
the table extractor, grouping-row filter, column mapper, pagination loop,
deduplicator, CSV column ordering (src/paginated_selenium_scraper.py) and
the SQL type-inference and value-conversion helpers (src/mssql_utils.py and
src/scraping/db_utils.py).  Python dicts are modelled as association lists
over `String`; a record value is a string, an int, or a list of link
annotations.  Machine-level aspects (the Selenium driver, HTML parsing, file
and database I/O) are outside the embedding: the extractor takes the parsed
cell grid as input, the pagination loop takes the per-page outcome as input.
-/

namespace MygaScraper

/-- A value stored in a scraped record: cell text, an int metadata field
(page number / row index), or a list of link annotations, each a pair of the
link text and optional href (Python dicts with keys text and href). -/
inductive Val where
  | vstr : String → Val
  | vnat : Nat → Val
  | vlinks : List (String × Option String) → Val
deriving DecidableEq

/-- A record: a Python dict modelled as an insertion-ordered association
list from column name to value.  Dicts produced by the code always have
distinct keys; theorems that depend on this carry a `NodupKeysR` hypothesis. -/
abbrev Rec := List (String × Val)

/-- First-match association lookup, the model of Python `d[k]` / `d.get(k)`. -/
def alookup {α : Type} (k : String) : List (String × α) → Option α
  | [] => none
  | p :: ps => if p.1 = k then some p.2 else alookup k ps

/-- Python dict assignment `d[k] = v`: update in place if the key exists
(keeping its position), otherwise append at the end. -/
def dictSet {α : Type} (r : List (String × α)) (k : String) (v : α) : List (String × α) :=
  if (alookup k r).isSome then r.map (fun p => if p.1 = k then (p.1, v) else p)
  else r ++ [(k, v)]

/-- The keys of a record, in insertion order. -/
def keysOf {α : Type} (r : List (String × α)) : List String := r.map Prod.fst

/-- The record has pairwise-distinct keys (always true of a Python dict). -/
def NodupKeysR {α : Type} (r : List (String × α)) : Prop := (keysOf r).Nodup

instance {α : Type} (r : List (String × α)) : Decidable (NodupKeysR r) :=
  inferInstanceAs (Decidable (keysOf r).Nodup)

/-- Whether a value is a plain string. -/
def isStrVal : Val → Bool
  | .vstr _ => true
  | _ => false

/-- Python `str(value)` as used in f-strings and numeric cleanup.  For the
records this code produces the relevant values are strings and ints; the
rendering of a link list stands in for the Python repr of that list (it is
never numeric-shaped, which is all the code relies on). -/
def valToPyStr : Val → String
  | .vstr s => s
  | .vnat n => toString n
  | .vlinks _ => "[links]"

/-! ### Character-level string primitives

The embedding implements the string operations the code uses (strip,
replace, endsWith, startsWith, lexicographic comparison) over the character
lists of the strings, so that every definition evaluates on concrete
inputs. -/

/-- The whitespace characters Python str.strip removes. -/
def isPySpace (c : Char) : Bool :=
  c = ' ' || c = '\t' || c = '\n' || c = '\r' || c = '\x0b' || c = '\x0c'

/-- Python `s.strip()`. -/
def pyStrip (s : String) : String :=
  ⟨((s.data.dropWhile isPySpace).reverse.dropWhile isPySpace).reverse⟩

/-- Leftmost non-overlapping replacement over characters, fuelled by the
input length (each step consumes at least one character for the non-empty
patterns the code uses). -/
def replaceFuel (pat rep : List Char) : Nat → List Char → List Char
  | 0, s => s
  | _ + 1, [] => []
  | n + 1, c :: cs =>
    if pat.isPrefixOf (c :: cs) then rep ++ replaceFuel pat rep n (cs.drop (pat.length - 1))
    else c :: replaceFuel pat rep n cs

/-- Python `s.replace(pat, rep)` for the non-empty patterns this code
passes. -/
def pyReplace (s pat rep : String) : String :=
  ⟨replaceFuel pat.data rep.data s.data.length s.data⟩

/-- Python `s.endswith(suffix)`. -/
def strEndsWith (s suffix : String) : Bool := List.isSuffixOf suffix.data s.data

/-- Python `s.startswith(pre)`. -/
def strStartsWith (s pre : String) : Bool := List.isPrefixOf pre.data s.data

/-! ## Table extractor (src/paginated_selenium_scraper.py, extract_table_data) -/

/-- A parsed HTML table cell: its stripped text (BeautifulSoup
get_text with strip) and the links it contains, each as (text, href). -/
structure Cell where
  text : String
  links : List (String × Option String)
deriving DecidableEq

/-- A parsed table: its rows, each a list of cells. -/
abbrev Table := List (List Cell)

/-- Column count of a table: number of th/td cells in its first row. -/
def tableColumns (t : Table) : Nat :=
  match t with
  | [] => 0
  | r :: _ => r.length

/-- Main-table selection loop (lines 197-212): skip tables with fewer than
two rows; keep the table with the highest column count among those with at
least 10 columns. -/
def pickMain (tables : List Table) : Option Table × Nat :=
  tables.foldl
    (fun st t =>
      if t.length < 2 then st
      else
        let cols := tableColumns t
        if st.2 < cols ∧ 10 ≤ cols then (some t, cols) else st)
    (none, 0)

/-- Fallback selection (lines 214-222): the first table with the most rows,
provided it has more than zero rows. -/
def pickLargest (tables : List Table) : Option Table :=
  (tables.foldl
    (fun (st : Option Table × Nat) t =>
      if st.2 < t.length then (some t, t.length) else st)
    (none, 0)).1

/-- Effective header names (lines 233-237): the header cell text, or
Column_N (N the 1-based position) when the text is blank. -/
def headersAux : Nat → List Cell → List String
  | _, [] => []
  | n, c :: cs =>
    (if c.text = "" then "Column_" ++ toString (n + 1) else c.text) :: headersAux (n + 1) cs

/-- Headers of a header row. -/
def headersOf (cells : List Cell) : List String := headersAux 0 cells

/-- The three scraping-metadata keys every raw record starts with. -/
def metaKeys : List String := ["page_number", "row_index", "source_url"]

/-- Fold a data row's cells into the record (lines 255-266): cell text under
the positional header (Column_N past the header row), and a header_links key
for cells that contain links. -/
def buildRowCells (headers : List String) : Rec → Nat → List Cell → Rec
  | r, _, [] => r
  | r, i, c :: cs =>
    let h := match headers.get? i with
      | some hh => hh
      | none => "Column_" ++ toString (i + 1)
    let r1 := dictSet r h (.vstr c.text)
    let r2 := if c.links = [] then r1 else dictSet r1 (h ++ "_links") (.vlinks c.links)
    buildRowCells headers r2 (i + 1) cs

/-- One raw record for a data row (lines 249-266): the metadata fields
followed by the per-cell fields. -/
def buildRow (page_num row_idx : Nat) (url : String) (headers : List String)
    (cells : List Cell) : Rec :=
  buildRowCells headers
    [("page_number", .vnat page_num), ("row_index", .vnat row_idx), ("source_url", .vstr url)]
    0 cells

/-- The raw records of the data rows (lines 244-268): one per row, skipping
rows with no cells; the enumeration index advances even over skipped rows. -/
def rawRowsAux (page_num : Nat) (url : String) (headers : List String) :
    Nat → List (List Cell) → List Rec
  | _, [] => []
  | i, row :: rest =>
    if row = [] then rawRowsAux page_num url headers (i + 1) rest
    else buildRow page_num i url headers row :: rawRowsAux page_num url headers (i + 1) rest

/-! ## Grouping-row filter and column mapper (is_grouping_row, map_column_headers) -/

/-- The key product columns checked by is_grouping_row (lines 375-380). -/
def required_fields : List String := ["Column_2", "Column_3", "Column_4", "Column_10"]

/-- Python `row.get(field, '')` for the grouping check.  The code then calls
.strip() on the result, which would raise for a non-string value; such values
never occur at the accessed keys of extractor rows, and theorems about this
function restrict to string-valued rows. -/
def getStrDefault (row : Rec) (k : String) : String :=
  match alookup k row with
  | some (.vstr s) => s
  | some (.vnat n) => toString n
  | some (.vlinks _) => ""
  | none => ""

/-- is_grouping_row (lines 371-399): count how many required fields hold a
trimmed value that is truthy and not a placeholder; fewer than two means a
grouping row; otherwise a (dead) extra check on Column_1. -/
def is_grouping_row (row : Rec) : Bool :=
  let filled := (required_fields.filter (fun f =>
    let v := pyStrip (getStrDefault row f)
    decide (v ≠ "") && decide (v ∉ (["", "-", "N/A", "NR"] : List String)))).length
  if filled < 2 then true
  else
    let group_by := pyStrip (getStrDefault row "Column_1")
    if decide (group_by ≠ "") && decide (filled = 0) then true else false

/-- The fixed positional column mapping (lines 284-299); Column_1 is
deliberately absent. -/
def column_mapping : List (String × String) :=
  [("Column_2", "Company_Product_Name"),
   ("Column_3", "AM_Best"),
   ("Column_4", "Max_Issue_Age"),
   ("Column_5", "Min_Premium"),
   ("Column_6", "SC_Years"),
   ("Column_7", "Free_Withdrawal_Yr1_Yr2"),
   ("Column_8", "Last_Change"),
   ("Column_9", "Premium_Bonus"),
   ("Column_10", "Current_Rate"),
   ("Column_11", "Base_Rate"),
   ("Column_12", "Years"),
   ("Column_13", "GTD_Yield_Rate"),
   ("Column_14", "Commission")]

/-- Formatting cleanup applied to mapped string values (lines 319-323). -/
def cleanValue : Val → Val
  | .vstr s =>
    .vstr (pyReplace (pyReplace (pyReplace s "\n/\n" " / ") "\n/" " /") "/\n" "/ ")
  | v => v

/-- map_column_headers (lines 279-331): drop grouping rows, then rebuild each
record with only the mapped columns, renamed and cleaned; metadata and link
fields are dropped. -/
def map_column_headers (data : List Rec) : List Rec :=
  data.filterMap (fun row =>
    if is_grouping_row row then none
    else some (column_mapping.foldl
      (fun acc kv =>
        match alookup kv.1 row with
        | some v => dictSet acc kv.2 (cleanValue v)
        | none => acc)
      []))

/-- extract_table_data (lines 181-277): select the main table (column-count
heuristic, falling back to the table with the most rows), then extract and
map the data rows.  With no suitable table the result is empty.  The selected
table is never empty (both selectors require at least one row); the empty
case below is unreachable. -/
def extract_table_data (page_num : Nat) (url : String) (tables : List Table) : List Rec :=
  let main := match (pickMain tables).1 with
    | some t => some t
    | none => pickLargest tables
  match main with
  | none => []
  | some [] => []
  | some (hrow :: drows) =>
      map_column_headers (rawRowsAux page_num url (headersOf hrow) 0 drows)

/-! ## Deduplicator (remove_duplicates, lines 333-369) -/

/-- Normalisation applied to each field before comparison: strings are
stripped, other values kept as-is (lines 351-354). -/
def trimVal : Val → Val
  | .vstr s => .vstr (pyStrip s)
  | v => v

/-- The comparison signature of a record before sorting: its fields with the
_links keys dropped and string values stripped (the loop of lines 345-354,
building the product_signature dict). -/
def sigPairs : Rec → List (String × Val)
  | [] => []
  | p :: ps =>
    if strEndsWith p.1 "_links" then sigPairs ps
    else (p.1, trimVal p.2) :: sigPairs ps

/-- Key order on signature pairs; Python sorted(items) compares tuples, and
dict keys are unique, so only the keys decide the order.  Python string
comparison is lexicographic on code points, the list order on the
characters. -/
def keyLe (p q : String × Val) : Prop := p.1.data ≤ q.1.data

instance : DecidableRel keyLe := fun p q => inferInstanceAs (Decidable (p.1.data ≤ q.1.data))

instance : IsTotal (String × Val) keyLe := ⟨fun a b => le_total a.1.data b.1.data⟩

instance : IsTrans (String × Val) keyLe := ⟨fun _ _ _ hab hbc => le_trans hab hbc⟩

/-- The hashable signature `str(sorted(product_signature.items()))` (line
357), modelled as the key-sorted pair list (Python str is injective on it). -/
def rowSignature (r : Rec) : List (String × Val) :=
  List.insertionSort keyLe (sigPairs r)

/-- The accumulation loop of remove_duplicates (lines 340-363): keep a record
iff its signature was not seen before. -/
def removeDupGo : List Rec → List (List (String × Val)) → List Rec
  | [], _ => []
  | r :: rs, seen =>
    if rowSignature r ∈ seen then removeDupGo rs seen
    else r :: removeDupGo rs (rowSignature r :: seen)

/-- remove_duplicates (lines 333-369). -/
def remove_duplicates (data : List Rec) : List Rec := removeDupGo data []

/-! ## Page signature and pagination loop (scrape_all_pages, lines 426-518) -/

/-- Python `product.get(k, '')` rendered as an f-string fragment. -/
def getFieldStr (r : Rec) (k : String) : String :=
  match alookup k r with
  | some v => valToPyStr v
  | none => ""

/-- One signature sample: company:rate (lines 506-508). -/
def sigEntry (r : Rec) : String :=
  getFieldStr r "Company_Product_Name" ++ ":" ++ getFieldStr r "Current_Rate"

/-- create_page_signature (lines 495-518): samples of the first three and,
for pages longer than six records, the last three records. -/
def create_page_signature (page_data : List Rec) : String :=
  match page_data with
  | [] => "empty"
  | _ =>
    let first := (page_data.take 3).map sigEntry
    let last :=
      if 6 < page_data.length then
        (page_data.drop (max 3 (page_data.length - 3))).map sigEntry
      else []
    String.intercalate "|" (first ++ last)

/-- The outcome of scraping one page, the loop's external input: an exception
propagating out of the page request/extraction, or the extracted records. -/
inductive PageResult where
  | err : PageResult
  | ok : List Rec → PageResult
deriving DecidableEq

/-- The loop state of scrape_all_pages: current page number, consecutive
empty-page counter, accumulated data, and the signature of the most recent
non-empty page. -/
structure ScrapeState where
  pageNum : Nat
  emptyCount : Nat
  acc : List Rec
  lastSig : Option String
deriving DecidableEq

/-- Python `if max_pages and page_num >= max_pages` (line 467): falsy for
None and for 0. -/
def capReached : Option Nat → Nat → Bool
  | none, _ => false
  | some m, p => if m = 0 then false else decide (m ≤ p)

/-- One iteration of the while-loop of scrape_all_pages (lines 437-485).
`Sum.inl` continues with the next state, `Sum.inr` breaks out with the
accumulated data.  An exception (lines 475-485) increments the empty counter
and, below three, continues WITHOUT the max_pages check; an empty page
(lines 457-469) does the same but then checks the cap; a non-empty page
breaks before appending when its signature repeats the previous non-empty
page, and otherwise appends, resets the counter, stores the signature and
checks the cap. -/
def scrapeStep (maxPages : Option Nat) (r : PageResult) (s : ScrapeState) :
    ScrapeState ⊕ List Rec :=
  match r with
  | .err =>
    if 3 ≤ s.emptyCount + 1 then .inr s.acc
    else .inl ⟨s.pageNum + 1, s.emptyCount + 1, s.acc, s.lastSig⟩
  | .ok [] =>
    if 3 ≤ s.emptyCount + 1 then .inr s.acc
    else if capReached maxPages s.pageNum then .inr s.acc
    else .inl ⟨s.pageNum + 1, s.emptyCount + 1, s.acc, s.lastSig⟩
  | .ok (d :: ds) =>
    let sig := create_page_signature (d :: ds)
    if s.lastSig = some sig then .inr s.acc
    else if capReached maxPages s.pageNum then .inr (s.acc ++ d :: ds)
    else .inl ⟨s.pageNum + 1, 0, s.acc ++ d :: ds, some sig⟩

/-- The while-loop, fuelled: `none` means the fuel ran out with the loop
still running.  `pages` gives the outcome of scraping each page number. -/
def scrapeLoop (maxPages : Option Nat) (pages : Nat → PageResult) :
    Nat → ScrapeState → Option (List Rec)
  | 0, _ => none
  | fuel + 1, s =>
    match scrapeStep maxPages (pages s.pageNum) s with
    | .inr acc => some acc
    | .inl s2 => scrapeLoop maxPages pages fuel s2

/-- The initial loop state (lines 428-431). -/
def initState : ScrapeState := ⟨1, 0, [], none⟩

/-- scrape_all_pages (lines 426-493): run the loop from page 1 and
deduplicate the accumulated data. -/
def scrape_all_pages (maxPages : Option Nat) (pages : Nat → PageResult) (fuel : Nat) :
    Option (List Rec) :=
  (scrapeLoop maxPages pages fuel initState).map remove_duplicates

/-- Termination measure for the loop under a cap m: each continuing
iteration strictly decreases it. -/
def scrapeMeasure (m : Nat) (s : ScrapeState) : Nat :=
  3 * (m - s.pageNum) + (3 - s.emptyCount)

/-- A page sequence where every request raises. -/
def pagesAllErr : Nat → PageResult := fun _ => .err

/-- A page sequence where every page parses to zero records. -/
def pagesAllEmpty : Nat → PageResult := fun _ => .ok []

/-! ## CSV column ordering (save_to_csv, lines 534-585) -/

/-- The preferred CSV column order (lines 547-561). -/
def preferred_order : List String :=
  ["Carrier_Product_Name", "AM_Best", "Max_Issue_Age", "Min_Premium", "SC_Years",
   "Free_Withdrawal_Yr1_Yr2", "Last_Change", "Premium_Bonus", "Current_Rate",
   "Base_Rate", "Years_Rate_GTD", "GTD_Yield_Surrender", "Commission"]

/-- Add to a set modelled as a duplicate-free list (first-seen order; only
membership and the final sorted form are ever observed, matching a Python
set). -/
def setInsert (l : List String) (x : String) : List String :=
  if x ∈ l then l else l ++ [x]

/-- The union of all record keys (lines 563-566). -/
def allColumnsOf (data : List Rec) : List String :=
  data.foldl (fun acc r => (keysOf r).foldl setInsert acc) []

/-- The preferred-columns loop (lines 569-573): move each preferred column
that occurs in the data from the set to the output list. -/
def csvLoop : List String → List String × List String → List String × List String
  | [], st => st
  | c :: ps, (cols, all) =>
    if c ∈ all then csvLoop ps (cols ++ [c], all.erase c)
    else csvLoop ps (cols, all)

/-- Ascending string sort, the model of Python sorted on strings
(lexicographic on code points). -/
def sortStrings (l : List String) : List String :=
  List.insertionSort (fun a b : String => a.data ≤ b.data) l

/-- The CSV header columns (lines 546-576): preferred columns present in the
data, then the remaining columns sorted. -/
def csvColumns (data : List Rec) : List String :=
  let st := csvLoop preferred_order ([], allColumnsOf data)
  st.1 ++ sortStrings st.2

/-- save_to_csv column computation (lines 534-580): with no data the
function returns without writing; otherwise the written header row is
`csvColumns`. -/
def save_to_csv_header (data : List Rec) : Option (List String) :=
  if data = [] then none else some (csvColumns data)

/-! ## SQL type inference and conversion (src/mssql_utils.py, src/scraping/db_utils.py) -/

/-- Python `v in (None, "", "-", "N/A")` on an optional record value. -/
def isSkipVal : Option Val → Bool
  | none => true
  | some (.vstr s) => decide (s = "" ∨ s = "-" ∨ s = "N/A")
  | some _ => false

/-- Membership of a plain string in the skip tuple. -/
def isSkipStr (s : String) : Bool := decide (s = "" ∨ s = "-" ∨ s = "N/A")

/-- The regex `^\d+$` on a character list: nonempty and digits only.
(Python \d also accepts non-ASCII decimal digits; the scraped data is
ASCII.) -/
def digitsOnly (t : List Char) : Bool :=
  decide (t ≠ []) && t.all Char.isDigit

/-- The regex `^\d+\.\d+$` on a character list: one or more digits, a dot,
one or more digits. -/
def decFormat (t : List Char) : Bool :=
  match t.span Char.isDigit with
  | (ds, c :: es) => decide (c = '.') && decide (ds ≠ []) && decide (es ≠ []) && es.all Char.isDigit
  | (_, []) => false

/-- Whether a string value matches `^\d+$` after the comma/whitespace
cleanup of line 40 of mssql_utils. -/
def intLike (s : String) : Bool := digitsOnly (pyStrip (pyReplace s "," "")).data

/-- Whether a string value matches `^\d+\.\d+$` after the same cleanup. -/
def decLike (s : String) : Bool := decFormat (pyStrip (pyReplace s "," "")).data

/-- The candidate type a cleaned string value contributes. -/
def candOfStr (s : String) : Option String :=
  if intLike s then some "INT" else if decLike s then some "DECIMAL(20,6)" else none

/-- The candidate type of one observed value (lines 35-47 of mssql_utils):
INT for Python ints and digit strings, DECIMAL(20,6) for floats and
decimal-pointed numeric strings, none for anything else (which aborts the
column's inference). -/
def candidateOf : Option Val → Option String
  | some (.vnat _) => some "INT"
  | some v => candOfStr (valToPyStr v)
  | none => none

/-- Merge a new candidate into the running inference (lines 48-51):
upgrade INT to DECIMAL, otherwise keep the first. -/
def mergeCand (inf : Option String) (c : String) : Option String :=
  match inf with
  | none => some c
  | some i => if i = "INT" ∧ c = "DECIMAL(20,6)" then some "DECIMAL(20,6)" else some i

/-- Fold the candidates of a column's considered values; a none candidate
aborts with no inference (the `inferred = None; break` of line 46). -/
def foldCands : List (Option String) → Option String → Option String
  | [], inf => inf
  | none :: _, _ => none
  | some c :: cs, inf => foldCands cs (mergeCand inf c)

/-- The three values a candidate can take. -/
def wfCands (cs : List (Option String)) : Prop :=
  ∀ x ∈ cs, x = none ∨ x = some "INT" ∨ x = some "DECIMAL(20,6)"

/-- The per-row scan of _infer_column_types (lines 29-51): skip placeholder
values, compute each candidate, abort on a non-numeric value. -/
def inferLoop (col : String) : List Rec → Option String → Option String
  | [], inf => inf
  | row :: rest, inf =>
    let v := alookup col row
    if isSkipVal v then inferLoop col rest inf
    else
      match candidateOf v with
      | none => none
      | some c => inferLoop col rest (mergeCand inf c)

/-- The inferred type of one column (none when inference fell through, so
the column gets the default NVARCHAR(MAX)). -/
def inferColumnType (data : List Rec) (col : String) : Option String :=
  inferLoop col data none

/-- The inferred-types dict over the given columns (the `types` dict of
_infer_column_types). -/
def typesFor (data : List Rec) : List String → List (String × String)
  | [] => []
  | c :: cs =>
    match inferColumnType data c with
    | some t => (c, t) :: typesFor data cs
    | none => typesFor data cs

/-- Python `d.update(u)`: assign every pair of u into d in order. -/
def updateDict (d u : List (String × String)) : List (String × String) :=
  u.foldl (fun acc p => dictSet acc p.1 p.2) d

/-- The default numeric column types applied after inference and overrides
(lines 98-104 of mssql_utils). -/
def default_numeric : List (String × String) :=
  [("Min_Premium", "INT"),
   ("Max_Issue_Age", "INT"),
   ("Current_Rate", "DECIMAL(20,6)"),
   ("Base_Rate", "DECIMAL(20,6)"),
   ("GTD_Yield_Rate", "DECIMAL(20,6)")]

/-- Fill in the default numeric types for columns present in the table but
still untyped (lines 105-107). -/
def defaultFill (d : List (String × String)) (columns : List String) : List (String × String) :=
  default_numeric.foldl
    (fun acc p =>
      if decide (p.1 ∈ columns) && !(alookup p.1 acc).isSome then dictSet acc p.1 p.2
      else acc)
    d

/-- The column type used by save_annuity_data_to_mssql for a column
(`inferred.get(c, DEFAULT_COLUMN_TYPE)` after the override update and the
default-numeric fill, lines 93-107 and 129/143). -/
def resolvedType (data : List Rec) (columns : List String)
    (overrides : List (String × String)) (c : String) : String :=
  (alookup c (defaultFill (updateDict (typesFor data columns) overrides) columns)).getD
    "NVARCHAR(MAX)"

/-- First-some choice on options, used to state the type-resolution
priority. -/
def ofirst {α : Type} : Option α → Option α → Option α
  | some x, _ => some x
  | none, b => b

/-- A parameter as handed to the DB driver: NULL, an int, a float (kept as
its cleaned source text, floats being outside the embedding), or the
original record value passed through unchanged (MySQL only). -/
inductive SqlParam where
  | null : SqlParam
  | intP : Int → SqlParam
  | floatP : String → SqlParam
  | rawP : Val → SqlParam
deriving DecidableEq

/-- Python `str(value).replace(",", "")` for a (non-None) value. -/
def cleanNum (v : Option Val) : String :=
  match v with
  | some w => pyReplace (valToPyStr w) "," ""
  | none => ""

/-- Whether `int(s)` succeeds: optional surrounding whitespace, optional
sign, one or more digits.  (Python also accepts underscores between digits;
none of the theorems depend on that corner.) -/
def pyIntAccepts (s : String) : Bool :=
  match (pyStrip s).data with
  | '-' :: ds => decide (ds ≠ []) && ds.all Char.isDigit
  | '+' :: ds => decide (ds ≠ []) && ds.all Char.isDigit
  | ds => decide (ds ≠ []) && ds.all Char.isDigit

/-- The int value `int(s)` parses to, when it succeeds. -/
def pyIntValue (s : String) : Int :=
  match (pyStrip s).data with
  | '-' :: ds => -(ds.foldl (fun n c => n * 10 + (c.toNat - 48)) 0 : Int)
  | '+' :: ds => (ds.foldl (fun n c => n * 10 + (c.toNat - 48)) 0 : Int)
  | ds => (ds.foldl (fun n c => n * 10 + (c.toNat - 48)) 0 : Int)

/-- Whether `float(s)` succeeds, restricted to the plain decimal forms the
scraped data can contain: optional sign, digits with at most one dot, at
least one digit. -/
def pyFloatAccepts (s : String) : Bool :=
  let core := match (pyStrip s).data with
    | '-' :: ds => ds
    | '+' :: ds => ds
    | ds => ds
  match core.span Char.isDigit with
  | (ds, []) => decide (ds ≠ [])
  | (ds, c :: es) => decide (c = '.') && decide (ds ≠ [] ∨ es ≠ []) && es.all Char.isDigit

/-- _convert of src/mssql_utils.py (lines 57-67): placeholders to None, INT
columns to int, DECIMAL columns to float, and EVERY other column type falls
through to `return None`. -/
def mssql_convert (v : Option Val) (col_type : String) : SqlParam :=
  if isSkipVal v then .null
  else if col_type = "INT" then
    if pyIntAccepts (cleanNum v) then .intP (pyIntValue (cleanNum v)) else .null
  else if strStartsWith col_type "DECIMAL" then
    if pyFloatAccepts (cleanNum v) then .floatP (cleanNum v) else .null
  else .null

/-- _convert_value_for_db of src/scraping/db_utils.py (lines 87-98):
placeholders to None, numeric columns converted when the parse succeeds, and
the ORIGINAL value returned in every remaining case. -/
def mysql_convert_value_for_db (v : Option Val) (col_type : String) : SqlParam :=
  match v with
  | none => .null
  | some w =>
    if isSkipVal v then .null
    else if col_type = "INT" then
      if pyIntAccepts (cleanNum v) then .intP (pyIntValue (cleanNum v)) else .rawP w
    else if strStartsWith col_type "DECIMAL" then
      if pyFloatAccepts (cleanNum v) then .floatP (cleanNum v) else .rawP w
    else .rawP w

/-- The parameter rows handed to executemany (line 143 of mssql_utils):
`_convert(row.get(c), types(c))` for each column of each record. -/
def mssqlInsertRows (data : List Rec) (columns : List String) (tOf : String → String) :
    List (List SqlParam) :=
  data.map (fun row => columns.map (fun c => mssql_convert (alookup c row) (tOf c)))

/-! ## Spec-side definitions

These follow the wording of the specification (not the code) and exist to be
compared with the embedded source functions. -/

/-- Whether a key names a link field. -/
def linkKey (k : String) : Bool := strEndsWith k "_links"

/-- A record field after string-trimming, as an optional value. -/
def lookupTrim (r : Rec) (k : String) : Option Val := (alookup k r).map trimVal

/-- Modelled from the spec: two records are equal for deduplication iff all
their non-link fields match after string-trimming (spec section 4.4).
Checked over the keys of both records, which decides the property for all
keys. -/
def specEquivB (r₁ r₂ : Rec) : Bool :=
  (keysOf r₁ ++ keysOf r₂).all (fun k =>
    linkKey k || decide (lookupTrim r₁ k = lookupTrim r₂ k))

/-- Fuelled helper for `dedupSpec`; the input length bounds the recursion
depth (the filtered tail is never longer than the tail). -/
def dedupSpecFuel : Nat → List Rec → List Rec
  | 0, _ => []
  | _ + 1, [] => []
  | n + 1, r :: rs => r :: dedupSpecFuel n (rs.filter (fun x => !(specEquivB r x)))

/-- Modelled from the spec: stable first-occurrence deduplication — keep
each record and drop every later record equal to it (spec sections 4.4 and
8). -/
def dedupSpec (l : List Rec) : List Rec := dedupSpecFuel l.length l

/-- The values of a column that type inference actually considers: the
string values outside the placeholder set, in row order. -/
def consideredStrs (col : String) : List Rec → List String
  | [] => []
  | r :: rs =>
    match alookup col r with
    | some (Val.vstr s) =>
      if isSkipStr s then consideredStrs col rs else s :: consideredStrs col rs
    | _ => consideredStrs col rs

/-- Every present value of the column in the data is a plain string
(true of all scraped records). -/
def strCol (data : List Rec) (col : String) : Bool :=
  data.all (fun r =>
    match alookup col r with
    | some v => isStrVal v
    | none => true)

/-- Modelled from the spec: how many of the four key columns hold a value
that, after trimming, is non-empty and not in the placeholder blacklist
(spec section 4.2). -/
def filledKeyCount (row : Rec) : Nat :=
  required_fields.countP (fun f =>
    let v := pyStrip (getStrDefault row f)
    decide (v ≠ "") && decide (v ∉ (["", "-", "N/A", "NR"] : List String)))

/-! ## Concrete inputs used by witnesses and counterexamples -/

/-- The two-column example table of the spec (section 8). -/
def exTable : Table :=
  [[⟨"Company", []⟩, ⟨"Rate", []⟩],
   [⟨"Acme", []⟩, ⟨"4.25", []⟩],
   [⟨"Beta", []⟩, ⟨"5.00", []⟩]]

/-- The records the spec example expects the extractor to yield. -/
def exExpected : List Rec :=
  [[("Company", .vstr "Acme"), ("Rate", .vstr "4.25")],
   [("Company", .vstr "Beta"), ("Rate", .vstr "5.00")]]

/-- A small mapped product record. -/
def recAcme : Rec :=
  [("Company_Product_Name", .vstr "Acme"), ("Current_Rate", .vstr "4.25")]

/-- A second, distinct product record. -/
def recBeta : Rec :=
  [("Company_Product_Name", .vstr "Beta"), ("Current_Rate", .vstr "5.00")]

/-- recAcme with whitespace padding in its field values. -/
def recAcmePadded : Rec :=
  [("Company_Product_Name", .vstr " Acme "), ("Current_Rate", .vstr "4.25 ")]

/-- A page sequence that repeats the same non-empty page forever. -/
def pagesRepeat : Nat → PageResult := fun _ => .ok [recAcme]

/-- A loop state that has just recorded the signature of that page. -/
def stateAfterAcme : ScrapeState :=
  ⟨2, 0, [recAcme], some (create_page_signature [recAcme])⟩

/-- A record list with a whitespace-padded duplicate of its first record. -/
def dupExample : List Rec := [recAcme, recBeta, recAcmePadded]

/-- Column A holding the spec's integer example values. -/
def intColData : List Rec := [[("A", .vstr "10,000")], [("A", .vstr "5000")]]

/-- A Current_Rate column holding a non-numeric rating value. -/
def textRateData : List Rec := [[("Current_Rate", .vstr "A-")]]

/-- A two-column record for the CSV ordering witness. -/
def csvData : List Rec := [[("AM_Best", .vstr "A"), ("Zed", .vstr "1")]]

/-! ## Association-list lemmas -/

theorem alookup_eq_none {α : Type} {k : String} :
    ∀ {l : List (String × α)}, alookup k l = none ↔ k ∉ keysOf l := by
  intro l
  induction l with
  | nil => simp [alookup, keysOf]
  | cons p ps ih =>
    have hcons : keysOf (p :: ps) = p.1 :: keysOf ps := rfl
    rw [hcons]
    simp only [alookup, List.mem_cons]
    by_cases h : p.1 = k
    · simp [h]
    · rw [if_neg h, ih]
      constructor
      · intro hk hor
        rcases hor with he | hm
        · exact h he.symm
        · exact hk hm
      · intro hk hm
        exact hk (Or.inr hm)

theorem mem_of_alookup {α : Type} {k : String} {v : α} :
    ∀ {l : List (String × α)}, alookup k l = some v → (k, v) ∈ l := by
  intro l
  induction l with
  | nil => simp [alookup]
  | cons p ps ih =>
    simp only [alookup]
    by_cases h : p.1 = k
    · simp only [if_pos h]
      intro hv
      have h2 := Option.some.inj hv
      exact List.mem_cons.mpr (Or.inl (by rw [← h, ← h2]))
    · simp only [if_neg h]
      intro hm
      exact List.mem_cons_of_mem _ (ih hm)

theorem alookup_of_mem_nodup {α : Type} {k : String} {v : α} :
    ∀ {l : List (String × α)}, NodupKeysR l → (k, v) ∈ l → alookup k l = some v := by
  intro l
  induction l with
  | nil => simp
  | cons p ps ih =>
    intro hnd hm
    have hnd' : NodupKeysR ps := (List.nodup_cons.mp hnd).2
    have hp1 : p.1 ∉ keysOf ps := (List.nodup_cons.mp hnd).1
    rcases List.mem_cons.mp hm with heq | hm'
    · subst heq
      simp [alookup]
    · have hk : p.1 ≠ k := by
        rintro rfl
        exact hp1 (List.mem_map.mpr ⟨(p.1, v), hm', rfl⟩)
      simp only [alookup, if_neg hk]
      exact ih hnd' hm'

theorem alookup_eq_of_perm {α : Type} {l l' : List (String × α)}
    (hp : l.Perm l') (hnd : NodupKeysR l) (k : String) :
    alookup k l = alookup k l' := by
  have hnd' : NodupKeysR l' := by
    have := hp.map Prod.fst
    exact this.nodup_iff.mp hnd
  cases h : alookup k l with
  | none =>
    have hk : k ∉ keysOf l := alookup_eq_none.mp h
    have hk' : k ∉ keysOf l' := fun hm => hk ((hp.map Prod.fst).mem_iff.mpr hm)
    exact (alookup_eq_none.mpr hk').symm
  | some v =>
    have hm : (k, v) ∈ l := mem_of_alookup h
    exact (alookup_of_mem_nodup hnd' (hp.mem_iff.mp hm)).symm

theorem string_data_inj {a b : String} (h : a.data = b.data) : a = b := by
  cases a
  cases b
  simp only at h
  rw [h]

theorem alookup_append {α : Type} (k : String) (l₁ l₂ : List (String × α)) :
    alookup k (l₁ ++ l₂) = ofirst (alookup k l₁) (alookup k l₂) := by
  induction l₁ with
  | nil => simp [alookup, ofirst]
  | cons p ps ih =>
    by_cases h : p.1 = k
    · simp [alookup, h, ofirst]
    · simp [alookup, h, ih]

theorem alookup_mapSet {α : Type} (k k' : String) (v : α) (l : List (String × α)) :
    alookup k' (l.map (fun p => if p.1 = k then (p.1, v) else p)) =
      if k' = k then (alookup k l).map (fun _ => v) else alookup k' l := by
  induction l with
  | nil => simp [alookup]
  | cons p ps ih =>
    by_cases hpk : p.1 = k
    · by_cases hk : k' = k
      · subst hk
        simp [alookup, hpk, ih]
      · have hkk : ¬ k = k' := fun he => hk he.symm
        simp [alookup, hpk, ih, hk, hkk]
    · by_cases hp : p.1 = k'
      · have hk : ¬ k' = k := fun he => hpk (hp.trans he)
        simp [alookup, hpk, hp, hk]
      · simp [alookup, hpk, hp, ih]

theorem alookup_dictSet_self {α : Type} (r : List (String × α)) (k : String) (v : α) :
    alookup k (dictSet r k v) = some v := by
  unfold dictSet
  by_cases h : (alookup k r).isSome
  · rw [if_pos h, alookup_mapSet, if_pos rfl]
    cases hx : alookup k r
    · rw [hx] at h; simp at h
    · simp
  · rw [if_neg h, alookup_append]
    cases hx : alookup k r
    · simp [ofirst, alookup]
    · rw [hx] at h; simp at h

theorem alookup_dictSet_ne {α : Type} (r : List (String × α)) {k k' : String} (v : α)
    (h : k' ≠ k) : alookup k' (dictSet r k v) = alookup k' r := by
  unfold dictSet
  by_cases hs : (alookup k r).isSome
  · rw [if_pos hs, alookup_mapSet, if_neg h]
  · rw [if_neg hs, alookup_append]
    have hkk : ¬ k = k' := fun he => h he.symm
    cases hx : alookup k' r
    · simp [ofirst, alookup, hkk]
    · simp [ofirst]

/-! ## C4: grouping-row classification -/

/-- C4: a raw record is classified as a grouping row iff fewer than two of
the four key columns Column_2, Column_3, Column_4, Column_10 hold a value
that, after trimming, is non-empty and not in the blacklist
containing the empty string, the dash, N/A and NR.  (The extra Column_1
check in the code is dead: it requires a filled count of zero, which the
first check already returned on.) -/
theorem is_grouping_row_iff (row : Rec) (_h : row.all (fun p => isStrVal p.2) = true) :
    is_grouping_row row = true ↔ filledKeyCount row < 2 := by
  unfold is_grouping_row filledKeyCount
  rw [List.countP_eq_length_filter]
  set n := (required_fields.filter (fun f =>
    let v := pyStrip (getStrDefault row f)
    decide (v ≠ "") && decide (v ∉ (["", "-", "N/A", "NR"] : List String)))).length with hn
  by_cases hlt : n < 2
  · simp [hlt]
  · have h0 : ¬ n = 0 := by omega
    simp [hlt, h0]

/-- Witness for C4 at a concrete record with no key columns filled. -/
theorem is_grouping_row_iff_witness :
    recAcme.all (fun p => isStrVal p.2) = true ∧
      (is_grouping_row recAcme = true ↔ filledKeyCount recAcme < 2) :=
  ⟨by decide, is_grouping_row_iff recAcme (by decide)⟩

/-! ## C7: exception handling versus empty pages -/

/-- C7 counterexample: at the max_pages cap the two transitions differ — an
empty page stops the loop at the cap, an exception continues past it. -/
theorem err_step_differs_at_cap :
    scrapeStep (some 1) PageResult.err initState ≠
      scrapeStep (some 1) (PageResult.ok []) initState := by
  decide

/-- C7 (amended): below the max_pages cap (or with no cap), an exception
iteration takes exactly the transition of a zero-record page: the empty
counter is incremented, the run continues, and a third consecutive such
event terminates the loop. -/
theorem err_step_eq_empty_step (mp : Option Nat) (s : ScrapeState)
    (hcap : capReached mp s.pageNum = false) :
    scrapeStep mp PageResult.err s = scrapeStep mp (PageResult.ok []) s := by
  unfold scrapeStep
  by_cases h3 : 3 ≤ s.emptyCount + 1
  · simp [h3]
  · simp [h3, hcap]

/-- Witness for C7 with no cap set. -/
theorem err_step_eq_empty_step_witness :
    capReached none initState.pageNum = false ∧
      scrapeStep none PageResult.err initState = scrapeStep none (PageResult.ok []) initState :=
  ⟨by decide, err_step_eq_empty_step none initState (by decide)⟩

/-! ## C2: repeated-page detection -/

/-- C2: when a page yields a non-empty record list whose signature equals
the stored signature of the most recent non-empty page, the loop stops
immediately and returns the data accumulated so far, without appending the
repeated page's records. -/
theorem dup_signature_stops (mp : Option Nat) (pages : Nat → PageResult) (fuel : Nat)
    (s : ScrapeState) (d : Rec) (ds : List Rec)
    (hpage : pages s.pageNum = PageResult.ok (d :: ds))
    (hsig : s.lastSig = some (create_page_signature (d :: ds))) :
    scrapeStep mp (PageResult.ok (d :: ds)) s = Sum.inr s.acc ∧
      scrapeLoop mp pages (fuel + 1) s = some s.acc := by
  have hstep : scrapeStep mp (PageResult.ok (d :: ds)) s = Sum.inr s.acc := by
    unfold scrapeStep
    simp [hsig]
  refine ⟨hstep, ?_⟩
  unfold scrapeLoop
  rw [hpage, hstep]

/-- Witness for C2: the repeated Acme page stops the loop with the
accumulator unchanged. -/
theorem dup_signature_stops_witness :
    pagesRepeat stateAfterAcme.pageNum = PageResult.ok [recAcme] ∧
      stateAfterAcme.lastSig = some (create_page_signature [recAcme]) ∧
      (scrapeStep none (PageResult.ok [recAcme]) stateAfterAcme = Sum.inr stateAfterAcme.acc ∧
        scrapeLoop none pagesRepeat 5 stateAfterAcme = some stateAfterAcme.acc) :=
  ⟨rfl, rfl, dup_signature_stops none pagesRepeat 4 stateAfterAcme recAcme [] rfl rfl⟩

/-! ## C1: loop termination -/

/-- Every continuing iteration under a positive cap strictly decreases the
termination measure and keeps the empty counter below three. -/
theorem scrapeStep_decreases {m : Nat} (hm : 1 ≤ m) (r : PageResult) {s s2 : ScrapeState}
    (he : s.emptyCount ≤ 2) (hstep : scrapeStep (some m) r s = Sum.inl s2) :
    scrapeMeasure m s2 < scrapeMeasure m s ∧ s2.emptyCount ≤ 2 := by
  cases r with
  | err =>
    simp only [scrapeStep] at hstep
    by_cases h3 : 3 ≤ s.emptyCount + 1
    · rw [if_pos h3] at hstep
      cases hstep
    · rw [if_neg h3] at hstep
      have hs2 : s2 = ⟨s.pageNum + 1, s.emptyCount + 1, s.acc, s.lastSig⟩ :=
        (Sum.inl.inj hstep).symm
      subst hs2
      unfold scrapeMeasure
      simp only
      omega
  | ok records =>
    cases records with
    | nil =>
      simp only [scrapeStep] at hstep
      by_cases h3 : 3 ≤ s.emptyCount + 1
      · rw [if_pos h3] at hstep
        cases hstep
      · rw [if_neg h3] at hstep
        by_cases hcap : capReached (some m) s.pageNum = true
        · rw [if_pos hcap] at hstep
          cases hstep
        · rw [if_neg hcap] at hstep
          have hs2 : s2 = ⟨s.pageNum + 1, s.emptyCount + 1, s.acc, s.lastSig⟩ :=
            (Sum.inl.inj hstep).symm
          subst hs2
          unfold scrapeMeasure
          simp only
          omega
    | cons d ds =>
      simp only [scrapeStep] at hstep
      by_cases hdup : s.lastSig = some (create_page_signature (d :: ds))
      · rw [if_pos hdup] at hstep
        cases hstep
      · rw [if_neg hdup] at hstep
        by_cases hcap : capReached (some m) s.pageNum = true
        · rw [if_pos hcap] at hstep
          cases hstep
        · rw [if_neg hcap] at hstep
          have hs2 : s2 =
              ⟨s.pageNum + 1, 0, s.acc ++ d :: ds, some (create_page_signature (d :: ds))⟩ :=
            (Sum.inl.inj hstep).symm
          subst hs2
          have hb : capReached (some m) s.pageNum = false := by
            cases hx : capReached (some m) s.pageNum
            · rfl
            · exact absurd hx hcap
          have hm0 : ¬ m = 0 := by omega
          simp only [capReached] at hb
          rw [if_neg hm0] at hb
          have hlt : ¬ m ≤ s.pageNum := of_decide_eq_false hb
          unfold scrapeMeasure
          simp only
          omega

/-- With enough fuel for the measure, the loop reaches a break. -/
theorem scrapeLoop_isSome_of_measure {m : Nat} (hm : 1 ≤ m) (pages : Nat → PageResult) :
    ∀ (fuel : Nat) (s : ScrapeState), s.emptyCount ≤ 2 → scrapeMeasure m s < fuel →
      (scrapeLoop (some m) pages fuel s).isSome = true := by
  intro fuel
  induction fuel with
  | zero =>
    intro s _ hlt
    exact absurd hlt (Nat.not_lt_zero _)
  | succ n ih =>
    intro s he hlt
    unfold scrapeLoop
    cases hstep : scrapeStep (some m) (pages s.pageNum) s with
    | inr acc => simp
    | inl s2 =>
      simp only
      obtain ⟨hdec, he2⟩ := scrapeStep_decreases hm _ he hstep
      exact ih s2 he2 (by omega)

/-- C1 counterexample: with max_pages = 1 and page 1 raising an exception,
the loop does NOT stop at the cap: it continues to page 2 and terminates
only after three consecutive exception pages (pages 1, 2 and 3). -/
theorem cap_skipped_on_error :
    scrapeStep (some 1) PageResult.err initState = Sum.inl ⟨2, 1, [], none⟩ ∧
      scrapeLoop (some 1) pagesAllErr 2 initState = none ∧
      scrapeLoop (some 1) pagesAllErr 3 initState = some [] := by
  decide

/-- C1 (amended): whenever a max_pages cap m with 1 ≤ m is set, the
pagination loop terminates within 3 * m + 1 iterations for every sequence of
page results: it stops as soon as the consecutive-empty counter reaches 3,
and on any non-exception iteration whose page number has reached the cap —
exception iterations skip the cap check, so the loop can continue up to two
pages past the cap before the counter reaches 3.  (Without a cap, a sequence
of endlessly fresh non-empty pages never terminates the loop.) -/
theorem scrape_all_pages_terminates_with_cap (pages : Nat → PageResult) (m : Nat)
    (hm : 1 ≤ m) : (scrape_all_pages (some m) pages (3 * m + 1)).isSome = true := by
  have he : initState.emptyCount ≤ 2 := by
    unfold initState
    simp
  have hmeas : scrapeMeasure m initState < 3 * m + 1 := by
    unfold scrapeMeasure initState
    simp only
    omega
  have h := scrapeLoop_isSome_of_measure hm pages (3 * m + 1) initState he hmeas
  unfold scrape_all_pages
  cases hx : scrapeLoop (some m) pages (3 * m + 1) initState with
  | none =>
    rw [hx] at h
    exact absurd h (by simp)
  | some l =>
    simp [hx]

/-- Witness for C1 applying the termination theorem at cap 1 over a sequence
of empty pages. -/
theorem scrape_all_pages_terminates_with_cap_witness :
    1 ≤ 1 ∧ (scrape_all_pages (some 1) pagesAllEmpty (3 * 1 + 1)).isSome = true :=
  ⟨by decide, scrape_all_pages_terminates_with_cap pagesAllEmpty 1 (by decide)⟩

/-! ## C5: deduplication is idempotent -/

/-- No record surviving the dedup loop has a signature in the seen set. -/
theorem removeDupGo_sig_not_mem :
    ∀ (xs : List Rec) (seen : List (List (String × Val))) (r : Rec),
      r ∈ removeDupGo xs seen → rowSignature r ∉ seen := by
  intro xs
  induction xs with
  | nil => intro seen r hr; cases hr
  | cons x xs ih =>
    intro seen r hr
    unfold removeDupGo at hr
    by_cases hx : rowSignature x ∈ seen
    · rw [if_pos hx] at hr
      exact ih seen r hr
    · rw [if_neg hx] at hr
      rcases List.mem_cons.mp hr with rfl | hr'
      · exact hx
      · intro hmem
        exact ih _ r hr' (List.mem_cons_of_mem _ hmem)

/-- The surviving records have pairwise-distinct signatures. -/
theorem removeDupGo_pairwise :
    ∀ (xs : List Rec) (seen : List (List (String × Val))),
      (removeDupGo xs seen).Pairwise (fun a b => rowSignature a ≠ rowSignature b) := by
  intro xs
  induction xs with
  | nil => intro seen; simp [removeDupGo]
  | cons x xs ih =>
    intro seen
    unfold removeDupGo
    by_cases hx : rowSignature x ∈ seen
    · rw [if_pos hx]
      exact ih seen
    · rw [if_neg hx]
      refine List.Pairwise.cons ?_ (ih _)
      intro b hb heq
      exact removeDupGo_sig_not_mem _ _ b hb (heq ▸ List.mem_cons_self _ _)

/-- The dedup loop leaves a list unchanged when no signature is seen and all
signatures are pairwise distinct. -/
theorem removeDupGo_id :
    ∀ (ys : List Rec) (seen : List (List (String × Val))),
      (∀ r ∈ ys, rowSignature r ∉ seen) →
      ys.Pairwise (fun a b => rowSignature a ≠ rowSignature b) →
      removeDupGo ys seen = ys := by
  intro ys
  induction ys with
  | nil => intro seen _ _; rfl
  | cons y ys ih =>
    intro seen hseen hpw
    unfold removeDupGo
    rw [if_neg (hseen y (List.mem_cons_self _ _))]
    have hpw' := List.pairwise_cons.mp hpw
    congr 1
    apply ih
    · intro r hr hmem
      rcases List.mem_cons.mp hmem with he | hmem'
      · exact hpw'.1 r hr he.symm
      · exact hseen r (List.mem_cons_of_mem _ hr) hmem'
    · exact hpw'.2

/-- C5: remove_duplicates is idempotent — running it on its own output
returns that output unchanged, for every record list. -/
theorem remove_duplicates_idempotent (xs : List Rec) :
    remove_duplicates (remove_duplicates xs) = remove_duplicates xs := by
  unfold remove_duplicates
  apply removeDupGo_id
  · intro r _ hmem
    cases hmem
  · exact removeDupGo_pairwise xs []

/-! ## C6: deduplication keeps first occurrences under trimmed non-link equality -/

theorem keysOf_sigPairs_sublist (r : Rec) : List.Sublist (keysOf (sigPairs r)) (keysOf r) := by
  induction r with
  | nil => simp [sigPairs, keysOf]
  | cons p ps ih =>
    simp only [sigPairs]
    by_cases h : strEndsWith p.1 "_links" = true
    · rw [if_pos h]
      exact ih.trans ((List.sublist_cons_self p.1 (keysOf ps)).trans (List.Sublist.refl _))
    · rw [if_neg h]
      exact ih.cons₂ _

theorem nodupKeys_sigPairs {r : Rec} (h : NodupKeysR r) : NodupKeysR (sigPairs r) :=
  (keysOf_sigPairs_sublist r).nodup h

theorem alookup_sigPairs {k : String} (hk : linkKey k = false) :
    ∀ (r : Rec), alookup k (sigPairs r) = (alookup k r).map trimVal := by
  intro r
  induction r with
  | nil => simp [sigPairs, alookup]
  | cons p ps ih =>
    simp only [sigPairs]
    by_cases h : strEndsWith p.1 "_links" = true
    · have hne : p.1 ≠ k := by
        intro he
        unfold linkKey at hk
        rw [← he, h] at hk
        cases hk
      rw [if_pos h]
      simp only [alookup, if_neg hne]
      exact ih
    · rw [if_neg h]
      by_cases hpk : p.1 = k
      · simp [alookup, hpk]
      · simp only [alookup, if_neg hpk]
        exact ih

theorem alookup_sigPairs_link {k : String} (hk : linkKey k = true) :
    ∀ (r : Rec), alookup k (sigPairs r) = none := by
  intro r
  induction r with
  | nil => simp [sigPairs, alookup]
  | cons p ps ih =>
    simp only [sigPairs]
    by_cases h : strEndsWith p.1 "_links" = true
    · rw [if_pos h]
      exact ih
    · have hne : p.1 ≠ k := by
        intro he
        unfold linkKey at hk
        rw [← he] at hk
        exact h hk
      rw [if_neg h]
      simp only [alookup, if_neg hne]
      exact ih

theorem rowSignature_perm (r : Rec) : (rowSignature r).Perm (sigPairs r) :=
  List.perm_insertionSort keyLe (sigPairs r)

theorem nodupKeys_rowSignature {r : Rec} (h : NodupKeysR r) : NodupKeysR (rowSignature r) :=
  ((rowSignature_perm r).map Prod.fst).nodup_iff.mpr (nodupKeys_sigPairs h)

theorem alookup_rowSignature {r : Rec} (h : NodupKeysR r) (k : String) :
    alookup k (rowSignature r) = alookup k (sigPairs r) :=
  alookup_eq_of_perm (rowSignature_perm r) (nodupKeys_rowSignature h) k

theorem rowSignature_pairwise_lt {r : Rec} (h : NodupKeysR r) :
    (rowSignature r).Pairwise (fun p q : String × Val => p.1.data < q.1.data) := by
  have hsorted : (rowSignature r).Pairwise keyLe :=
    List.sorted_insertionSort keyLe (sigPairs r)
  have hne : (rowSignature r).Pairwise (fun p q : String × Val => p.1 ≠ q.1) :=
    List.pairwise_map.mp (nodupKeys_rowSignature h)
  exact (hsorted.and hne).imp
    (fun hpq => lt_of_le_of_ne hpq.1 (fun hd => hpq.2 (string_data_inj hd)))

theorem alookup_head_tail_none {p : String × Val} {t : List (String × Val)}
    (h : (p :: t).Pairwise (fun a b : String × Val => a.1.data < b.1.data)) :
    alookup p.1 t = none := by
  rw [alookup_eq_none]
  intro hmem
  obtain ⟨q, hq, hq1⟩ := List.mem_map.mp hmem
  have := (List.pairwise_cons.mp h).1 q hq
  rw [hq1] at this
  exact lt_irrefl _ this

theorem eq_of_sorted_alookup_eq :
    ∀ (l₁ l₂ : List (String × Val)),
      l₁.Pairwise (fun p q : String × Val => p.1.data < q.1.data) →
      l₂.Pairwise (fun p q : String × Val => p.1.data < q.1.data) →
      (∀ k, alookup k l₁ = alookup k l₂) → l₁ = l₂ := by
  intro l₁
  induction l₁ with
  | nil =>
    intro l₂ _ _ hlook
    cases l₂ with
    | nil => rfl
    | cons q t₂ =>
      have h := hlook q.1
      simp [alookup] at h
  | cons p t ih =>
    intro l₂ h₁ h₂ hlook
    cases l₂ with
    | nil =>
      have h := hlook p.1
      simp [alookup] at h
    | cons q t₂ =>
      have hp : alookup p.1 (q :: t₂) = some p.2 := by
        rw [← hlook p.1]
        simp [alookup]
      have hq : alookup q.1 (p :: t) = some q.2 := by
        rw [hlook q.1]
        simp [alookup]
      have hkey : p.1 = q.1 := by
        by_contra hne
        have hpq : ¬ q.1 = p.1 := fun he => hne he.symm
        simp only [alookup, if_neg hpq] at hp
        have hpm : (p.1, p.2) ∈ t₂ := mem_of_alookup hp
        have h1 : q.1.data < p.1.data := by
          have := (List.pairwise_cons.mp h₂).1 _ hpm
          exact this
        have hqp : ¬ p.1 = q.1 := hne
        simp only [alookup, if_neg hqp] at hq
        have hqm : (q.1, q.2) ∈ t := mem_of_alookup hq
        have h2 : p.1.data < q.1.data := (List.pairwise_cons.mp h₁).1 _ hqm
        exact lt_irrefl _ (h1.trans h2)
      have hval : p.2 = q.2 := by
        rw [hkey] at hp
        simp only [alookup, if_pos rfl] at hp
        exact (Option.some.inj hp).symm
      have hpq : p = q := Prod.ext hkey hval
      subst hpq
      congr 1
      refine ih t₂ (List.pairwise_cons.mp h₁).2 (List.pairwise_cons.mp h₂).2 ?_
      intro k
      by_cases hk : k = p.1
      · subst hk
        rw [alookup_head_tail_none h₁, alookup_head_tail_none h₂]
      · have hne : ¬ p.1 = k := fun he => hk he.symm
        have := hlook k
        simpa [alookup, if_neg hne] using this

/-- Two records (with dict-like distinct keys) have equal dedup signatures
iff all their non-link fields agree after trimming. -/
theorem sig_eq_iff_specEquiv {r₁ r₂ : Rec} (h₁ : NodupKeysR r₁) (h₂ : NodupKeysR r₂) :
    rowSignature r₁ = rowSignature r₂ ↔ specEquivB r₁ r₂ = true := by
  constructor
  · intro heq
    unfold specEquivB
    rw [List.all_eq_true]
    intro k _
    by_cases hl : linkKey k = true
    · simp [hl]
    · have hlf : linkKey k = false := by
        cases hx : linkKey k
        · rfl
        · exact absurd hx hl
      have e1 : alookup k (sigPairs r₁) = alookup k (sigPairs r₂) := by
        rw [← alookup_rowSignature h₁ k, ← alookup_rowSignature h₂ k, heq]
      rw [alookup_sigPairs hlf, alookup_sigPairs hlf] at e1
      have hlt : lookupTrim r₁ k = lookupTrim r₂ k := by
        unfold lookupTrim
        exact e1
      simp [hlf, hlt]
  · intro hspec
    have hlook : ∀ k, alookup k (sigPairs r₁) = alookup k (sigPairs r₂) := by
      intro k
      by_cases hl : linkKey k = true
      · rw [alookup_sigPairs_link hl, alookup_sigPairs_link hl]
      · have hlf : linkKey k = false := by
          cases hx : linkKey k
          · rfl
          · exact absurd hx hl
        rw [alookup_sigPairs hlf, alookup_sigPairs hlf]
        by_cases hmem : k ∈ keysOf r₁ ++ keysOf r₂
        · unfold specEquivB at hspec
          rw [List.all_eq_true] at hspec
          have hk := hspec k hmem
          rw [hlf] at hk
          simp only [Bool.false_or, decide_eq_true_eq] at hk
          unfold lookupTrim at hk
          exact hk
        · rw [List.mem_append] at hmem
          push_neg at hmem
          have hn1 : alookup k r₁ = none := alookup_eq_none.mpr hmem.1
          have hn2 : alookup k r₂ = none := alookup_eq_none.mpr hmem.2
          rw [hn1, hn2]
    apply eq_of_sorted_alookup_eq _ _ (rowSignature_pairwise_lt h₁) (rowSignature_pairwise_lt h₂)
    intro k
    rw [alookup_rowSignature h₁ k, alookup_rowSignature h₂ k]
    exact hlook k

theorem dedupSpecFuel_congr :
    ∀ (n : Nat) (l : List Rec), l.length ≤ n → dedupSpecFuel n l = dedupSpecFuel l.length l := by
  intro n
  induction n using Nat.strong_induction_on with
  | _ n ih =>
    intro l hlen
    cases n with
    | zero =>
      have h0 : l = [] := List.length_eq_zero.mp (Nat.le_zero.mp hlen)
      subst h0
      rfl
    | succ m =>
      cases l with
      | nil => rfl
      | cons r rs =>
        simp only [dedupSpecFuel, List.length_cons]
        congr 1
        have hf : (rs.filter (fun x => !(specEquivB r x))).length ≤ rs.length :=
          List.length_filter_le _ _
        have hlen' : rs.length ≤ m := by
          simp only [List.length_cons] at hlen
          omega
        rw [ih m (Nat.lt_succ_self m) _ (le_trans hf hlen')]
        rw [ih rs.length (by omega) _ hf]

theorem dedupSpec_cons (r : Rec) (rs : List Rec) :
    dedupSpec (r :: rs) = r :: dedupSpec (rs.filter (fun x => !(specEquivB r x))) := by
  unfold dedupSpec
  simp only [List.length_cons, dedupSpecFuel]
  congr 1
  exact dedupSpecFuel_congr rs.length _ (List.length_filter_le _ _)

theorem removeDupGo_eq_dedupSpec :
    ∀ (xs : List Rec) (seen : List (List (String × Val))),
      (∀ r ∈ xs, NodupKeysR r) →
      removeDupGo xs seen =
        dedupSpec (xs.filter (fun r => decide (rowSignature r ∉ seen))) := by
  intro xs
  induction xs with
  | nil =>
    intro seen _
    rfl
  | cons x xs ih =>
    intro seen hnd
    unfold removeDupGo
    by_cases hx : rowSignature x ∈ seen
    · rw [if_pos hx]
      have hfc : (x :: xs).filter (fun r => decide (rowSignature r ∉ seen)) =
          xs.filter (fun r => decide (rowSignature r ∉ seen)) := by
        rw [List.filter_cons]
        simp [hx]
      rw [hfc]
      exact ih seen (fun r hr => hnd r (List.mem_cons_of_mem _ hr))
    · rw [if_neg hx]
      have hfc : (x :: xs).filter (fun r => decide (rowSignature r ∉ seen)) =
          x :: xs.filter (fun r => decide (rowSignature r ∉ seen)) := by
        rw [List.filter_cons]
        simp [hx]
      rw [hfc, dedupSpec_cons]
      congr 1
      rw [ih (rowSignature x :: seen) (fun r hr => hnd r (List.mem_cons_of_mem _ hr))]
      congr 1
      rw [List.filter_filter]
      apply List.filter_congr
      intro r hr
      have hnd_x : NodupKeysR x := hnd x (List.mem_cons_self _ _)
      have hnd_r : NodupKeysR r := hnd r (List.mem_cons_of_mem _ hr)
      have hiff : specEquivB x r = true ↔ rowSignature x = rowSignature r :=
        (sig_eq_iff_specEquiv hnd_x hnd_r).symm
      by_cases hs : rowSignature r ∈ seen
      · simp [hs, List.mem_cons]
      · by_cases he : rowSignature x = rowSignature r
        · have hb : specEquivB x r = true := hiff.mpr he
          simp [List.mem_cons, hs, hb, he.symm]
        · have hb : specEquivB x r = false := by
            cases hc : specEquivB x r
            · rfl
            · exact absurd (hiff.mp hc) he
          have hne : ¬ rowSignature r = rowSignature x := fun hc => he hc.symm
          simp [List.mem_cons, hs, hb, hne]

/-- C6: remove_duplicates keeps exactly the first occurrence of each
equivalence class and preserves input order, where two records are
equivalent iff all their non-link fields are equal after trimming
surrounding whitespace — it refines the spec-side stable first-occurrence
deduplication under that equivalence.  Whitespace padding in later
duplicates therefore cannot change which records are kept. -/
theorem remove_duplicates_first_occurrence (xs : List Rec)
    (h : xs.all (fun r => decide (NodupKeysR r)) = true) :
    remove_duplicates xs = dedupSpec xs := by
  have hnd : ∀ r ∈ xs, NodupKeysR r := by
    intro r hr
    exact of_decide_eq_true (List.all_eq_true.mp h r hr)
  unfold remove_duplicates
  rw [removeDupGo_eq_dedupSpec xs [] hnd]
  congr 1
  exact List.filter_eq_self.mpr (fun a _ => by simp)

/-- Witness for C6: a list whose third record is a whitespace-padded
duplicate of the first; both sides drop exactly that record. -/
theorem remove_duplicates_first_occurrence_witness :
    dupExample.all (fun r => decide (NodupKeysR r)) = true ∧
      remove_duplicates dupExample = dedupSpec dupExample :=
  ⟨by decide, remove_duplicates_first_occurrence dupExample (by decide)⟩

/-! ## C3: the table extractor -/

theorem dictSet_fresh {α : Type} {r : List (String × α)} {k : String} (v : α)
    (h : alookup k r = none) : dictSet r k v = r ++ [(k, v)] := by
  unfold dictSet
  rw [h]
  simp

theorem length_headersAux : ∀ (n : Nat) (cells : List Cell),
    (headersAux n cells).length = cells.length := by
  intro n cells
  induction cells generalizing n with
  | nil => rfl
  | cons c cs ih =>
    simp only [headersAux, List.length_cons]
    rw [ih]

theorem length_headersOf (cells : List Cell) : (headersOf cells).length = cells.length :=
  length_headersAux 0 cells

theorem buildRowCells_keys (headers : List String) :
    ∀ (cells : List Cell) (i : Nat) (r : Rec),
      (∀ c ∈ cells, c.links = []) →
      i + cells.length ≤ headers.length →
      (keysOf r ++ headers.drop i).Nodup →
      keysOf (buildRowCells headers r i cells) =
        keysOf r ++ (headers.drop i).take cells.length := by
  intro cells
  induction cells with
  | nil =>
    intro i r _ _ _
    simp [buildRowCells]
  | cons c cs ih =>
    intro i r hlinks hlen hnd
    have hi : i < headers.length := by
      simp only [List.length_cons] at hlen
      omega
    have hget : headers.get? i = some (headers.get ⟨i, hi⟩) := List.get?_eq_get hi
    have hdrop : headers.drop i = headers.get ⟨i, hi⟩ :: headers.drop (i + 1) :=
      List.drop_eq_get_cons hi
    rw [hdrop] at hnd
    have hnd' : ((keysOf r ++ [headers.get ⟨i, hi⟩]) ++ headers.drop (i + 1)).Nodup := by
      rw [List.append_assoc]
      simpa using hnd
    have hfresh : alookup (headers.get ⟨i, hi⟩) r = none := by
      rw [alookup_eq_none]
      intro hmem
      rcases List.nodup_append.mp hnd with ⟨_, _, hdisj⟩
      exact hdisj hmem (List.mem_cons_self _ _)
    have hk : keysOf (r ++ [(headers.get ⟨i, hi⟩, Val.vstr c.text)]) =
        keysOf r ++ [headers.get ⟨i, hi⟩] := by
      unfold keysOf
      simp
    simp only [buildRowCells, hget]
    rw [if_pos (hlinks c (List.mem_cons_self _ _))]
    rw [dictSet_fresh (Val.vstr c.text) hfresh]
    rw [ih (i + 1) (r ++ [(headers.get ⟨i, hi⟩, Val.vstr c.text)])
      (fun x hx => hlinks x (List.mem_cons_of_mem _ hx))
      (by simp only [List.length_cons] at hlen; omega)
      (by rw [hk]; exact hnd')]
    rw [hk]
    rw [List.append_assoc, List.singleton_append]
    rw [hdrop, List.length_cons, List.take_succ_cons]

theorem buildRow_keys (p i : Nat) (u : String) (headers : List String) (cells : List Cell)
    (hlinks : ∀ c ∈ cells, c.links = [])
    (hlen : cells.length ≤ headers.length)
    (hnd : (metaKeys ++ headers).Nodup) :
    keysOf (buildRow p i u headers cells) = metaKeys ++ headers.take cells.length := by
  unfold buildRow
  have h0 : keysOf ([("page_number", Val.vnat p), ("row_index", Val.vnat i),
      ("source_url", Val.vstr u)] : Rec) = metaKeys := by
    unfold keysOf metaKeys
    simp
  rw [buildRowCells_keys headers cells 0 _ hlinks (by omega) (by rw [h0, List.drop_zero]; exact hnd)]
  rw [h0, List.drop_zero]

theorem rawRowsAux_keys (p : Nat) (u : String) (headers : List String)
    (hnd : (metaKeys ++ headers).Nodup) :
    ∀ (drows : List (List Cell)) (i : Nat),
      (∀ row ∈ drows, row ≠ []) →
      (∀ row ∈ drows, row.length ≤ headers.length) →
      (∀ row ∈ drows, ∀ c ∈ row, c.links = []) →
      (rawRowsAux p u headers i drows).map keysOf =
        drows.map (fun row => metaKeys ++ headers.take row.length) := by
  intro drows
  induction drows with
  | nil => intro i _ _ _; rfl
  | cons row rest ih =>
    intro i hne hlen hlinks
    unfold rawRowsAux
    rw [if_neg (hne row (List.mem_cons_self _ _))]
    simp only [List.map_cons]
    rw [buildRow_keys p i u headers row (hlinks row (List.mem_cons_self _ _))
      (hlen row (List.mem_cons_self _ _)) hnd]
    rw [ih (i + 1) (fun r hr => hne r (List.mem_cons_of_mem _ hr))
      (fun r hr => hlen r (List.mem_cons_of_mem _ hr))
      (fun r hr => hlinks r (List.mem_cons_of_mem _ hr))]

/-- C3 counterexample: on the spec's own example table the full extractor
yields the empty list — the raw records carry the metadata keys and the
grouping-row filter then discards both data rows for lacking the
Column_2/3/4/10 layout — not the claimed two records. -/
theorem extract_example_yields_nothing :
    extract_table_data 1 "u" [exTable] = [] ∧ ([] : List Rec) ≠ exExpected := by
  constructor
  · decide
  · decide

/-- C3 (amended): the raw extraction stage produces exactly one record per
data row (the enumeration skips only rows with no cells, excluded here),
and, when the rows contain no links, are no wider than the header row, and
the effective header names together with the metadata keys are distinct,
each record's keys are page_number, row_index, source_url followed by the
header-row cell texts (Column_N for blank header cells) for its first
row-length columns.  The subsequent map_column_headers stage discards
records without the Column_2.. layout, so the spec's example yields []. -/
theorem raw_extraction_stage_keys (p : Nat) (u : String) (hrow : List Cell)
    (drows : List (List Cell))
    (h1 : drows.all (fun row => decide (row ≠ [])) = true)
    (h2 : drows.all (fun row => decide (row.length ≤ hrow.length)) = true)
    (h3 : drows.all (fun row => row.all (fun c => decide (c.links = []))) = true)
    (h4 : decide ((metaKeys ++ headersOf hrow).Nodup) = true) :
    (rawRowsAux p u (headersOf hrow) 0 drows).length = drows.length ∧
      (rawRowsAux p u (headersOf hrow) 0 drows).map keysOf =
        drows.map (fun row => metaKeys ++ (headersOf hrow).take row.length) := by
  have hne : ∀ row ∈ drows, row ≠ [] :=
    fun row hr => of_decide_eq_true (List.all_eq_true.mp h1 row hr)
  have hlen : ∀ row ∈ drows, row.length ≤ (headersOf hrow).length := by
    intro row hr
    rw [length_headersOf]
    exact of_decide_eq_true (List.all_eq_true.mp h2 row hr)
  have hlinks : ∀ row ∈ drows, ∀ c ∈ row, c.links = [] := by
    intro row hr c hc
    exact of_decide_eq_true (List.all_eq_true.mp (List.all_eq_true.mp h3 row hr) c hc)
  have hkeys := rawRowsAux_keys p u (headersOf hrow) (of_decide_eq_true h4) drows 0
    hne hlen hlinks
  refine ⟨?_, hkeys⟩
  have := congrArg List.length hkeys
  simpa using this

/-- Witness for C3 at the spec's example table: two records whose keys are
the metadata keys followed by Company and Rate. -/
theorem raw_extraction_stage_keys_witness :
    ([[⟨"Acme", []⟩, ⟨"4.25", []⟩], [⟨"Beta", []⟩, ⟨"5.00", []⟩]] : List (List Cell)).all
        (fun row => decide (row ≠ [])) = true ∧
      (rawRowsAux 1 "u" (headersOf [⟨"Company", []⟩, ⟨"Rate", []⟩]) 0
          [[⟨"Acme", []⟩, ⟨"4.25", []⟩], [⟨"Beta", []⟩, ⟨"5.00", []⟩]]).length = 2 ∧
      (rawRowsAux 1 "u" (headersOf [⟨"Company", []⟩, ⟨"Rate", []⟩]) 0
          [[⟨"Acme", []⟩, ⟨"4.25", []⟩], [⟨"Beta", []⟩, ⟨"5.00", []⟩]]).map keysOf =
        ([[⟨"Acme", []⟩, ⟨"4.25", []⟩], [⟨"Beta", []⟩, ⟨"5.00", []⟩]] : List (List Cell)).map
          (fun row => metaKeys ++ (headersOf [⟨"Company", []⟩, ⟨"Rate", []⟩]).take row.length) :=
  ⟨by decide,
    (raw_extraction_stage_keys 1 "u" [⟨"Company", []⟩, ⟨"Rate", []⟩]
      [[⟨"Acme", []⟩, ⟨"4.25", []⟩], [⟨"Beta", []⟩, ⟨"5.00", []⟩]]
      (by decide) (by decide) (by decide) (by decide)).1,
    (raw_extraction_stage_keys 1 "u" [⟨"Company", []⟩, ⟨"Rate", []⟩]
      [[⟨"Acme", []⟩, ⟨"4.25", []⟩], [⟨"Beta", []⟩, ⟨"5.00", []⟩]]
      (by decide) (by decide) (by decide) (by decide)).2⟩

/-! ## C9: CSV column ordering -/

theorem setInsert_nodup {l : List String} (h : l.Nodup) (x : String) :
    (setInsert l x).Nodup := by
  unfold setInsert
  by_cases hx : x ∈ l
  · rw [if_pos hx]
    exact h
  · rw [if_neg hx]
    refine List.Nodup.append h (List.nodup_singleton x) ?_
    intro a ha hax
    rw [List.mem_singleton] at hax
    exact hx (hax ▸ ha)

theorem foldl_setInsert_nodup :
    ∀ (ks acc : List String), acc.Nodup → (ks.foldl setInsert acc).Nodup := by
  intro ks
  induction ks with
  | nil => intro acc h; exact h
  | cons k ks ih => intro acc h; exact ih _ (setInsert_nodup h k)

theorem allColumnsOf_nodup (data : List Rec) : (allColumnsOf data).Nodup := by
  unfold allColumnsOf
  suffices hgen : ∀ (rows : List Rec) (acc : List String), acc.Nodup →
      (rows.foldl (fun acc r => (keysOf r).foldl setInsert acc) acc).Nodup by
    exact hgen data [] (List.nodup_nil)
  intro rows
  induction rows with
  | nil => intro acc h; exact h
  | cons r rest ih => intro acc h; exact ih _ (foldl_setInsert_nodup (keysOf r) acc h)

theorem csvLoop_eq :
    ∀ (ps cols all : List String), ps.Nodup → all.Nodup →
      csvLoop ps (cols, all) =
        (cols ++ ps.filter (fun c => decide (c ∈ all)),
          all.filter (fun c => decide (c ∉ ps))) := by
  intro ps
  induction ps with
  | nil =>
    intro cols all _ _
    simp [csvLoop]
  | cons c ps ih =>
    intro cols all hnp hna
    have hcp : c ∉ ps := (List.nodup_cons.mp hnp).1
    have hnp' : ps.Nodup := (List.nodup_cons.mp hnp).2
    unfold csvLoop
    by_cases hc : c ∈ all
    · rw [if_pos hc]
      rw [ih (cols ++ [c]) (all.erase c) hnp' (hna.erase c)]
      simp only [Prod.mk.injEq]
      constructor
      · rw [List.filter_cons]
        simp only [hc, decide_eq_true_eq, if_pos]
        rw [List.append_assoc, List.singleton_append]
        congr 1
        congr 1
        apply List.filter_congr
        intro x hx
        have hxc : x ≠ c := fun he => hcp (he ▸ hx)
        simp [List.mem_erase_of_ne hxc]
      · rw [hna.erase_eq_filter c, List.filter_filter]
        apply List.filter_congr
        intro x _
        by_cases hxc : x = c
        · simp [hxc, List.mem_cons]
        · simp [List.mem_cons, hxc]
    · rw [if_neg hc]
      rw [ih cols all hnp' hna]
      simp only [Prod.mk.injEq]
      constructor
      · rw [List.filter_cons]
        simp [hc]
      · apply List.filter_congr
        intro x hx
        have hxc : x ≠ c := fun he => hc (he ▸ hx)
        simp [List.mem_cons, hxc]

/-- C9: for every non-empty record list, the CSV header's column order is
the preferred columns that occur in the data, in preferred-list order,
followed by the remaining data columns sorted ascending. -/
theorem save_to_csv_column_order (data : List Rec) (h : data ≠ []) :
    save_to_csv_header data =
      some (preferred_order.filter (fun c => decide (c ∈ allColumnsOf data)) ++
        sortStrings ((allColumnsOf data).filter (fun c => decide (c ∉ preferred_order)))) := by
  unfold save_to_csv_header csvColumns
  rw [if_neg h]
  rw [csvLoop_eq preferred_order [] (allColumnsOf data) (by decide) (allColumnsOf_nodup data)]
  simp

/-- Witness for C9 at a one-record list: AM_Best is preferred, Zed follows
sorted. -/
theorem save_to_csv_column_order_witness :
    csvData ≠ [] ∧
      save_to_csv_header csvData =
        some (preferred_order.filter (fun c => decide (c ∈ allColumnsOf csvData)) ++
          sortStrings ((allColumnsOf csvData).filter (fun c => decide (c ∉ preferred_order)))) :=
  ⟨by decide, save_to_csv_column_order csvData (by decide)⟩

/-! ## C8: SQL column type inference -/

theorem dropWhile_head_false {α : Type} (p : α → Bool) :
    ∀ (l : List α) (c : α) (es : List α), l.dropWhile p = c :: es → p c = false := by
  intro l
  induction l with
  | nil => intro c es h; cases h
  | cons a as ih =>
    intro c es h
    by_cases ha : p a = true
    · rw [List.dropWhile_cons, if_pos ha] at h
      exact ih c es h
    · rw [List.dropWhile_cons, if_neg ha] at h
      have hac : a = c := (List.cons.injEq _ _ _ _ ▸ h).1
      cases hb : p c
      · rfl
      · rw [← hac] at hb
        exact absurd hb ha

theorem decFormat_not_digitsOnly {t : List Char} (h : decFormat t = true) :
    digitsOnly t = false := by
  unfold decFormat at h
  rw [List.span_eq_take_drop] at h
  cases hd : t.dropWhile Char.isDigit with
  | nil =>
    rw [hd] at h
    cases h
  | cons c es =>
    rw [hd] at h
    have hfalse : Char.isDigit c = false := dropWhile_head_false Char.isDigit t c es hd
    have hmem : c ∈ t := (List.dropWhile_sublist (p := Char.isDigit) (l := t)).subset
      (by rw [hd]; exact List.mem_cons_self c es)
    cases hb : digitsOnly t
    · rfl
    · exfalso
      unfold digitsOnly at hb
      simp only [Bool.and_eq_true, decide_eq_true_eq, List.all_eq_true] at hb
      have := hb.2 c hmem
      rw [hfalse] at this
      cases this

theorem decLike_not_intLike {s : String} (h : decLike s = true) : intLike s = false :=
  decFormat_not_digitsOnly h

theorem mergeCand_dec (c : String) :
    mergeCand (some "DECIMAL(20,6)") c = some "DECIMAL(20,6)" := by
  simp only [mergeCand]
  rw [if_neg]
  intro hand
  exact absurd hand.1 (by decide)

theorem mergeCand_int_int : mergeCand (some "INT") "INT" = some "INT" := by
  simp only [mergeCand]
  rw [if_neg]
  intro hand
  exact absurd hand.2 (by decide)

theorem mergeCand_int_dec : mergeCand (some "INT") "DECIMAL(20,6)" = some "DECIMAL(20,6)" := by
  simp [mergeCand]

theorem foldCands_dec : ∀ (cs : List (Option String)),
    foldCands cs (some "DECIMAL(20,6)") = none ∨
      foldCands cs (some "DECIMAL(20,6)") = some "DECIMAL(20,6)" := by
  intro cs
  induction cs with
  | nil => right; rfl
  | cons x cs ih =>
    cases x with
    | none => left; rfl
    | some c =>
      show foldCands cs (mergeCand (some "DECIMAL(20,6)") c) = none ∨ _
      rw [mergeCand_dec]
      exact ih

theorem foldCands_dec_eq_dec_iff : ∀ (cs : List (Option String)),
    foldCands cs (some "DECIMAL(20,6)") = some "DECIMAL(20,6)" ↔ ∀ x ∈ cs, x ≠ none := by
  intro cs
  induction cs with
  | nil => simp [foldCands]
  | cons x cs ih =>
    cases x with
    | none =>
      constructor
      · intro h; cases h
      · intro h
        exact absurd rfl (h none (List.mem_cons_self _ _))
    | some c =>
      show foldCands cs (mergeCand (some "DECIMAL(20,6)") c) = _ ↔ _
      rw [mergeCand_dec, ih]
      simp [List.forall_mem_cons]

theorem foldCands_int_eq_int_iff : ∀ (cs : List (Option String)), wfCands cs →
    (foldCands cs (some "INT") = some "INT" ↔ ∀ x ∈ cs, x = some "INT") := by
  intro cs
  induction cs with
  | nil => intro _; simp [foldCands]
  | cons x cs ih =>
    intro hwf
    have hwf' : wfCands cs := fun y hy => hwf y (List.mem_cons_of_mem _ hy)
    rcases hwf x (List.mem_cons_self _ _) with hx | hx | hx
    · subst hx
      constructor
      · intro h; cases h
      · intro h
        exact absurd (h none (List.mem_cons_self _ _)) (by decide)
    · subst hx
      show foldCands cs (mergeCand (some "INT") "INT") = _ ↔ _
      rw [mergeCand_int_int, ih hwf']
      simp [List.forall_mem_cons]
    · subst hx
      show foldCands cs (mergeCand (some "INT") "DECIMAL(20,6)") = _ ↔ _
      rw [mergeCand_int_dec]
      constructor
      · intro h
        rcases foldCands_dec cs with hd | hd
        · rw [hd] at h; cases h
        · rw [hd] at h
          exact absurd (Option.some.inj h) (by decide)
      · intro h
        exact absurd (h (some "DECIMAL(20,6)") (List.mem_cons_self _ _))
          (by intro he; exact absurd (Option.some.inj he) (by decide))

theorem foldCands_int_eq_dec_iff : ∀ (cs : List (Option String)), wfCands cs →
    (foldCands cs (some "INT") = some "DECIMAL(20,6)" ↔
      (∀ x ∈ cs, x = some "INT" ∨ x = some "DECIMAL(20,6)") ∧
        ∃ x ∈ cs, x = some "DECIMAL(20,6)") := by
  intro cs
  induction cs with
  | nil =>
    intro _
    constructor
    · intro h
      exact absurd (Option.some.inj h) (by decide)
    · rintro ⟨_, x, hx, _⟩
      cases hx
  | cons x cs ih =>
    intro hwf
    have hwf' : wfCands cs := fun y hy => hwf y (List.mem_cons_of_mem _ hy)
    rcases hwf x (List.mem_cons_self _ _) with hx | hx | hx
    · subst hx
      constructor
      · intro h; cases h
      · rintro ⟨hall, _⟩
        rcases hall none (List.mem_cons_self _ _) with he | he <;> cases he
    · subst hx
      show foldCands cs (mergeCand (some "INT") "INT") = _ ↔ _
      rw [mergeCand_int_int, ih hwf']
      constructor
      · rintro ⟨hall, y, hy, hyd⟩
        exact ⟨fun z hz => by
            rcases List.mem_cons.mp hz with rfl | hz'
            · exact Or.inl rfl
            · exact hall z hz',
          y, List.mem_cons_of_mem _ hy, hyd⟩
      · rintro ⟨hall, y, hy, hyd⟩
        refine ⟨fun z hz => hall z (List.mem_cons_of_mem _ hz), y, ?_, hyd⟩
        rcases List.mem_cons.mp hy with rfl | hy'
        · exact absurd (Option.some.inj hyd) (by decide)
        · exact hy'
    · subst hx
      show foldCands cs (mergeCand (some "INT") "DECIMAL(20,6)") = _ ↔ _
      rw [mergeCand_int_dec, foldCands_dec_eq_dec_iff]
      constructor
      · intro h
        refine ⟨fun z hz => ?_, some "DECIMAL(20,6)", List.mem_cons_self _ _, rfl⟩
        rcases List.mem_cons.mp hz with rfl | hz'
        · exact Or.inr rfl
        · rcases hwf' z hz' with hz0 | hz0 | hz0
          · exact absurd hz0 (h z hz')
          · exact Or.inl hz0
          · exact Or.inr hz0
      · rintro ⟨hall, _⟩
        intro z hz
        rcases hall z (List.mem_cons_of_mem _ hz) with hz0 | hz0 <;>
          · rw [hz0]; intro he; cases he

theorem foldCands_none_eq_int_iff : ∀ (cs : List (Option String)), wfCands cs →
    (foldCands cs none = some "INT" ↔ cs ≠ [] ∧ ∀ x ∈ cs, x = some "INT") := by
  intro cs
  induction cs with
  | nil =>
    intro _
    constructor
    · intro h; cases h
    · rintro ⟨h, _⟩; exact absurd rfl h
  | cons x cs _ =>
    intro hwf
    have hwf' : wfCands cs := fun y hy => hwf y (List.mem_cons_of_mem _ hy)
    rcases hwf x (List.mem_cons_self _ _) with hx | hx | hx
    · subst hx
      constructor
      · intro h; cases h
      · rintro ⟨_, hall⟩
        exact absurd (hall none (List.mem_cons_self _ _)) (by decide)
    · subst hx
      show foldCands cs (mergeCand none "INT") = _ ↔ _
      rw [show mergeCand none "INT" = some "INT" from rfl, foldCands_int_eq_int_iff cs hwf']
      constructor
      · intro h
        refine ⟨List.cons_ne_nil _ _, fun z hz => ?_⟩
        rcases List.mem_cons.mp hz with rfl | hz'
        · rfl
        · exact h z hz'
      · rintro ⟨_, hall⟩
        exact fun z hz => hall z (List.mem_cons_of_mem _ hz)
    · subst hx
      show foldCands cs (mergeCand none "DECIMAL(20,6)") = _ ↔ _
      rw [show mergeCand none "DECIMAL(20,6)" = some "DECIMAL(20,6)" from rfl]
      constructor
      · intro h
        rcases foldCands_dec cs with hd | hd
        · rw [hd] at h; cases h
        · rw [hd] at h
          exact absurd (Option.some.inj h) (by decide)
      · rintro ⟨_, hall⟩
        exact absurd (Option.some.inj (hall (some "DECIMAL(20,6)") (List.mem_cons_self _ _)))
          (by decide)

theorem foldCands_none_eq_dec_iff : ∀ (cs : List (Option String)), wfCands cs →
    (foldCands cs none = some "DECIMAL(20,6)" ↔
      cs ≠ [] ∧ (∀ x ∈ cs, x = some "INT" ∨ x = some "DECIMAL(20,6)") ∧
        ∃ x ∈ cs, x = some "DECIMAL(20,6)") := by
  intro cs
  induction cs with
  | nil =>
    intro _
    constructor
    · intro h; cases h
    · rintro ⟨h, _⟩; exact absurd rfl h
  | cons x cs _ =>
    intro hwf
    have hwf' : wfCands cs := fun y hy => hwf y (List.mem_cons_of_mem _ hy)
    rcases hwf x (List.mem_cons_self _ _) with hx | hx | hx
    · subst hx
      constructor
      · intro h; cases h
      · rintro ⟨_, hall, _⟩
        rcases hall none (List.mem_cons_self _ _) with he | he <;> cases he
    · subst hx
      show foldCands cs (mergeCand none "INT") = _ ↔ _
      rw [show mergeCand none "INT" = some "INT" from rfl, foldCands_int_eq_dec_iff cs hwf']
      constructor
      · rintro ⟨hall, y, hy, hyd⟩
        exact ⟨List.cons_ne_nil _ _,
          fun z hz => by
            rcases List.mem_cons.mp hz with rfl | hz'
            · exact Or.inl rfl
            · exact hall z hz',
          y, List.mem_cons_of_mem _ hy, hyd⟩
      · rintro ⟨_, hall, y, hy, hyd⟩
        refine ⟨fun z hz => hall z (List.mem_cons_of_mem _ hz), y, ?_, hyd⟩
        rcases List.mem_cons.mp hy with rfl | hy'
        · exact absurd (Option.some.inj hyd) (by decide)
        · exact hy'
    · subst hx
      show foldCands cs (mergeCand none "DECIMAL(20,6)") = _ ↔ _
      rw [show mergeCand none "DECIMAL(20,6)" = some "DECIMAL(20,6)" from rfl,
        foldCands_dec_eq_dec_iff]
      constructor
      · intro h
        refine ⟨List.cons_ne_nil _ _, fun z hz => ?_,
          some "DECIMAL(20,6)", List.mem_cons_self _ _, rfl⟩
        rcases List.mem_cons.mp hz with rfl | hz'
        · exact Or.inr rfl
        · rcases hwf' z hz' with hz0 | hz0 | hz0
          · exact absurd hz0 (h z hz')
          · exact Or.inl hz0
          · exact Or.inr hz0
      · rintro ⟨_, hall, _⟩
        intro z hz
        rcases hall z (List.mem_cons_of_mem _ hz) with hz0 | hz0 <;>
          · rw [hz0]; intro he; cases he

theorem candOfStr_eq_int_iff (s : String) : candOfStr s = some "INT" ↔ intLike s = true := by
  unfold candOfStr
  by_cases hi : intLike s = true
  · rw [if_pos hi]
    simp [hi]
  · rw [if_neg hi]
    by_cases hd : decLike s = true
    · rw [if_pos hd]
      constructor
      · intro h
        exact absurd (Option.some.inj h) (by decide)
      · intro h
        exact absurd h hi
    · rw [if_neg hd]
      constructor
      · intro h
        cases h
      · intro h
        exact absurd h hi

theorem candOfStr_eq_dec_iff (s : String) :
    candOfStr s = some "DECIMAL(20,6)" ↔ decLike s = true := by
  unfold candOfStr
  by_cases hd : decLike s = true
  · have hi : ¬ intLike s = true := by
      rw [decLike_not_intLike hd]
      simp
    rw [if_neg hi, if_pos hd]
    simp [hd]
  · by_cases hi : intLike s = true
    · rw [if_pos hi]
      constructor
      · intro h
        exact absurd (Option.some.inj h) (by decide)
      · intro h
        exact absurd h hd
    · rw [if_neg hi, if_neg hd]
      constructor
      · intro h
        cases h
      · intro h
        exact absurd h hd

theorem candOfStr_wf (s : String) :
    candOfStr s = none ∨ candOfStr s = some "INT" ∨ candOfStr s = some "DECIMAL(20,6)" := by
  unfold candOfStr
  by_cases hi : intLike s = true
  · simp [hi]
  · by_cases hd : decLike s = true
    · simp [hi, hd]
    · simp [hi, hd]

theorem wfCands_map_candOfStr (cs : List String) : wfCands (cs.map candOfStr) := by
  intro x hx
  rcases List.mem_map.mp hx with ⟨s, _, rfl⟩
  exact candOfStr_wf s

theorem inferLoop_cons_none (col : String) (row : Rec) (rest : List Rec) (inf : Option String)
    (hv : alookup col row = none) :
    inferLoop col (row :: rest) inf = inferLoop col rest inf := by
  simp only [inferLoop]
  rw [hv]
  rfl

theorem inferLoop_cons_skip (col : String) (row : Rec) (rest : List Rec) (inf : Option String)
    (s : String) (hv : alookup col row = some (Val.vstr s)) (hs : isSkipStr s = true) :
    inferLoop col (row :: rest) inf = inferLoop col rest inf := by
  simp only [inferLoop]
  rw [hv]
  rw [if_pos (show isSkipVal (some (Val.vstr s)) = true from hs)]

theorem inferLoop_cons_val (col : String) (row : Rec) (rest : List Rec) (inf : Option String)
    (s : String) (hv : alookup col row = some (Val.vstr s)) (hs : isSkipStr s = false) :
    inferLoop col (row :: rest) inf =
      match candOfStr s with
      | none => none
      | some c => inferLoop col rest (mergeCand inf c) := by
  have hns : ¬ isSkipVal (some (Val.vstr s)) = true := by
    rw [show isSkipVal (some (Val.vstr s)) = isSkipStr s from rfl, hs]
    simp
  simp only [inferLoop]
  rw [hv]
  rw [if_neg hns]
  rfl

theorem consideredStrs_cons_none (col : String) (row : Rec) (rest : List Rec)
    (hv : alookup col row = none) :
    consideredStrs col (row :: rest) = consideredStrs col rest := by
  simp only [consideredStrs]
  rw [hv]

theorem consideredStrs_cons_skip (col : String) (row : Rec) (rest : List Rec) (s : String)
    (hv : alookup col row = some (Val.vstr s)) (hs : isSkipStr s = true) :
    consideredStrs col (row :: rest) = consideredStrs col rest := by
  simp only [consideredStrs]
  rw [hv]
  show (if isSkipStr s = true then consideredStrs col rest
    else s :: consideredStrs col rest) = consideredStrs col rest
  rw [if_pos hs]

theorem consideredStrs_cons_val (col : String) (row : Rec) (rest : List Rec) (s : String)
    (hv : alookup col row = some (Val.vstr s)) (hs : isSkipStr s = false) :
    consideredStrs col (row :: rest) = s :: consideredStrs col rest := by
  simp only [consideredStrs]
  rw [hv]
  show (if isSkipStr s = true then consideredStrs col rest
    else s :: consideredStrs col rest) = s :: consideredStrs col rest
  rw [if_neg (by rw [hs]; simp)]

theorem consideredStrs_cons_other (col : String) (row : Rec) (rest : List Rec) (v : Val)
    (hv : alookup col row = some v) (hw : isStrVal v = false) :
    consideredStrs col (row :: rest) = consideredStrs col rest := by
  simp only [consideredStrs]
  rw [hv]
  cases v with
  | vstr s => cases hw
  | vnat n => rfl
  | vlinks l => rfl

theorem inferLoop_eq_foldCands (col : String) :
    ∀ (data : List Rec), strCol data col = true → ∀ (inf : Option String),
      inferLoop col data inf = foldCands ((consideredStrs col data).map candOfStr) inf := by
  intro data
  induction data with
  | nil => intro _ inf; rfl
  | cons row rest ih =>
    intro hstr inf
    have hpair : (match alookup col row with
        | some v => isStrVal v
        | none => true) = true ∧ strCol rest col = true := by
      unfold strCol at hstr ⊢
      rw [List.all_cons, Bool.and_eq_true] at hstr
      exact hstr
    cases hv : alookup col row with
    | none =>
      rw [inferLoop_cons_none col row rest inf hv, consideredStrs_cons_none col row rest hv]
      exact ih hpair.2 inf
    | some v =>
      cases v with
      | vstr s =>
        by_cases hs : isSkipStr s = true
        · rw [inferLoop_cons_skip col row rest inf s hv hs,
            consideredStrs_cons_skip col row rest s hv hs]
          exact ih hpair.2 inf
        · have hsf : isSkipStr s = false := by
            cases hb : isSkipStr s
            · rfl
            · exact absurd hb hs
          rw [inferLoop_cons_val col row rest inf s hv hsf,
            consideredStrs_cons_val col row rest s hv hsf]
          simp only [List.map_cons]
          cases hc : candOfStr s with
          | none => rfl
          | some c => exact ih hpair.2 (mergeCand inf c)
      | vnat n =>
        exfalso
        have := hpair.1
        rw [hv] at this
        cases this
      | vlinks l =>
        exfalso
        have := hpair.1
        rw [hv] at this
        cases this

theorem ofirst_none_right {α : Type} (a : Option α) : ofirst a none = a := by
  cases a <;> rfl

theorem ofirst_assoc {α : Type} (a b c : Option α) :
    ofirst (ofirst a b) c = ofirst a (ofirst b c) := by
  cases a <;> rfl

theorem alookup_typesFor (data : List Rec) :
    ∀ (columns : List String) (c : String),
      alookup c (typesFor data columns) =
        if c ∈ columns then inferColumnType data c else none := by
  intro columns
  induction columns with
  | nil => intro c; simp [typesFor, alookup]
  | cons x cs ih =>
    intro c
    simp only [typesFor]
    cases hx : inferColumnType data x with
    | some t =>
      by_cases hc : x = c
      · subst hc
        simp [alookup, hx, List.mem_cons]
      · have hc' : ¬ c = x := fun he => hc he.symm
        simp only [alookup, if_neg hc, ih c]
        by_cases hmem : c ∈ cs
        · simp [hmem, List.mem_cons, hc']
        · simp [hmem, List.mem_cons, hc']
    | none =>
      by_cases hc : x = c
      · subst hc
        rw [ih x]
        by_cases hmem : x ∈ cs
        · simp [hmem, List.mem_cons, hx]
        · simp [hmem, List.mem_cons, hx]
      · have hc' : ¬ c = x := fun he => hc he.symm
        rw [ih c]
        by_cases hmem : c ∈ cs
        · simp [hmem, List.mem_cons, hc']
        · simp [hmem, List.mem_cons, hc']

theorem alookup_updateDict (k : String) :
    ∀ (u d : List (String × String)), NodupKeysR u →
      alookup k (updateDict d u) = ofirst (alookup k u) (alookup k d) := by
  intro u
  induction u with
  | nil => intro d _; simp [updateDict, alookup, ofirst]
  | cons p ps ih =>
    intro d hnd
    have hnd' : NodupKeysR ps := (List.nodup_cons.mp hnd).2
    have hp : p.1 ∉ keysOf ps := (List.nodup_cons.mp hnd).1
    show alookup k (updateDict (dictSet d p.1 p.2) ps) = _
    rw [ih (dictSet d p.1 p.2) hnd']
    by_cases hk : k = p.1
    · subst hk
      have hn : alookup p.1 ps = none := alookup_eq_none.mpr hp
      rw [hn, alookup_dictSet_self]
      simp [alookup, ofirst]
    · rw [alookup_dictSet_ne d p.2 hk]
      have hne : ¬ p.1 = k := fun he => hk he.symm
      simp [alookup, hne]

theorem alookup_fillFold (k : String) (columns : List String) :
    ∀ (fl d : List (String × String)),
      alookup k (fl.foldl (fun acc p =>
        if decide (p.1 ∈ columns) && !(alookup p.1 acc).isSome then dictSet acc p.1 p.2
        else acc) d) =
      ofirst (alookup k d) (if k ∈ columns then alookup k fl else none) := by
  intro fl
  induction fl with
  | nil =>
    intro d
    simp only [List.foldl_nil, alookup]
    rw [ite_self, ofirst_none_right]
  | cons p fl ih =>
    intro d
    rw [List.foldl_cons, ih]
    by_cases hk : k = p.1
    · subst hk
      by_cases hcol : p.1 ∈ columns
      · by_cases hd : alookup p.1 d = none
        · rw [if_pos (by simp [hcol, hd])]
          rw [alookup_dictSet_self, hd]
          simp [ofirst, alookup, hcol]
        · have hsome : (alookup p.1 d).isSome = true := by
            cases hx : alookup p.1 d
            · exact absurd hx hd
            · rfl
          rw [if_neg (by simp [hsome])]
          cases hx : alookup p.1 d
          · exact absurd hx hd
          · simp [ofirst, alookup, hcol, hx]
      · rw [if_neg (by simp [hcol])]
        simp [hcol]
    · have hne : ¬ p.1 = k := fun he => hk he.symm
      by_cases hstep : decide (p.1 ∈ columns) && !(alookup p.1 d).isSome
      · rw [if_pos hstep, alookup_dictSet_ne d p.2 hk]
        by_cases hcol : k ∈ columns
        · simp [hcol, alookup, hne]
        · simp [hcol]
      · rw [if_neg hstep]
        by_cases hcol : k ∈ columns
        · simp [hcol, alookup, hne]
        · simp [hcol]

theorem resolvedType_priority (data : List Rec) (columns : List String)
    (overrides : List (String × String)) (col : String)
    (hov : NodupKeysR overrides) (hcol : col ∈ columns) :
    resolvedType data columns overrides col =
      (ofirst (alookup col overrides)
        (ofirst (inferColumnType data col) (alookup col default_numeric))).getD
        "NVARCHAR(MAX)" := by
  unfold resolvedType defaultFill
  rw [alookup_fillFold col columns default_numeric
    (updateDict (typesFor data columns) overrides)]
  rw [alookup_updateDict col overrides (typesFor data columns) hov]
  rw [alookup_typesFor data columns col]
  rw [if_pos hcol, if_pos hcol]
  rw [ofirst_assoc]

/-- C8 counterexample: a Current_Rate column holding only the non-numeric
value A- gets no inferred type, yet its resolved column type is
DECIMAL(20,6) through the default-numeric layer — not the claimed fallback
to the generic text type NVARCHAR(MAX). -/
theorem current_rate_text_resolves_decimal :
    inferColumnType textRateData "Current_Rate" = none ∧
      resolvedType textRateData ["Current_Rate"] [] "Current_Rate" = "DECIMAL(20,6)" ∧
      ("DECIMAL(20,6)" : String) ≠ "NVARCHAR(MAX)" :=
  ⟨by decide, by decide, by decide⟩

/-- C8 (amended): for a string-valued column, inference yields integer iff
the column has at least one value outside the skip set and every such value
is digits-only after removing commas and surrounding whitespace; decimal
iff at least one such value exists, every one is digit-only or
digits-dot-digits, and at least one has a decimal point; and the resolved
column type is the caller override if present, else the inferred type, else
the default-numeric type for the five known numeric columns, else the text
type NVARCHAR(MAX) — so overrides always replace the inferred type, but a
column with no inference only falls back to text when it is not one of the
default-numeric columns. -/
theorem infer_and_resolve_types (data : List Rec) (col : String) (columns : List String)
    (overrides : List (String × String))
    (hstr : strCol data col = true)
    (hov : NodupKeysR overrides)
    (hcol : col ∈ columns) :
    (inferColumnType data col = some "INT" ↔
      consideredStrs col data ≠ [] ∧ (consideredStrs col data).all intLike = true) ∧
    (inferColumnType data col = some "DECIMAL(20,6)" ↔
      consideredStrs col data ≠ [] ∧
        (consideredStrs col data).all (fun s => intLike s || decLike s) = true ∧
        (consideredStrs col data).any decLike = true) ∧
    resolvedType data columns overrides col =
      (ofirst (alookup col overrides)
        (ofirst (inferColumnType data col) (alookup col default_numeric))).getD
        "NVARCHAR(MAX)" := by
  have hbridge : inferColumnType data col =
      foldCands ((consideredStrs col data).map candOfStr) none :=
    inferLoop_eq_foldCands col data hstr none
  have hwf := wfCands_map_candOfStr (consideredStrs col data)
  refine ⟨?_, ?_, resolvedType_priority data columns overrides col hov hcol⟩
  · rw [hbridge, foldCands_none_eq_int_iff _ hwf]
    constructor
    · rintro ⟨hne, hall⟩
      refine ⟨?_, ?_⟩
      · intro h0
        rw [h0] at hne
        exact hne rfl
      · rw [List.all_eq_true]
        intro s hs
        exact (candOfStr_eq_int_iff s).mp (hall (candOfStr s) (List.mem_map_of_mem _ hs))
    · rintro ⟨hne, hall⟩
      refine ⟨?_, ?_⟩
      · intro h0
        exact hne (List.map_eq_nil.mp h0)
      · intro x hx
        rcases List.mem_map.mp hx with ⟨s, hs, rfl⟩
        exact (candOfStr_eq_int_iff s).mpr (List.all_eq_true.mp hall s hs)
  · rw [hbridge, foldCands_none_eq_dec_iff _ hwf]
    constructor
    · rintro ⟨hne, hall, x, hx, hxd⟩
      refine ⟨?_, ?_, ?_⟩
      · intro h0
        rw [h0] at hne
        exact hne rfl
      · rw [List.all_eq_true]
        intro s hs
        rcases hall (candOfStr s) (List.mem_map_of_mem _ hs) with hci | hcd
        · rw [(candOfStr_eq_int_iff s).mp hci]
          simp
        · rw [(candOfStr_eq_dec_iff s).mp hcd]
          simp
      · rcases List.mem_map.mp hx with ⟨s, hs, rfl⟩
        rw [List.any_eq_true]
        exact ⟨s, hs, (candOfStr_eq_dec_iff s).mp hxd⟩
    · rintro ⟨hne, hall, hany⟩
      rcases List.any_eq_true.mp hany with ⟨s, hs, hsd⟩
      refine ⟨fun h0 => hne (List.map_eq_nil.mp h0), ?_,
        candOfStr s, List.mem_map_of_mem _ hs, (candOfStr_eq_dec_iff s).mpr hsd⟩
      intro x hx
      rcases List.mem_map.mp hx with ⟨t, ht, rfl⟩
      have hor := List.all_eq_true.mp hall t ht
      rw [Bool.or_eq_true] at hor
      rcases hor with hti | htd
      · exact Or.inl ((candOfStr_eq_int_iff t).mpr hti)
      · exact Or.inr ((candOfStr_eq_dec_iff t).mpr htd)

/-- Witness for C8 at the spec's 10,000 / 5000 example column. -/
theorem infer_and_resolve_types_witness :
    strCol intColData "A" = true ∧ NodupKeysR ([] : List (String × String)) ∧
      "A" ∈ ["A"] ∧
      ((inferColumnType intColData "A" = some "INT" ↔
        consideredStrs "A" intColData ≠ [] ∧
          (consideredStrs "A" intColData).all intLike = true) ∧
      (inferColumnType intColData "A" = some "DECIMAL(20,6)" ↔
        consideredStrs "A" intColData ≠ [] ∧
          (consideredStrs "A" intColData).all (fun s => intLike s || decLike s) = true ∧
          (consideredStrs "A" intColData).any decLike = true) ∧
      resolvedType intColData ["A"] [] "A" =
        (ofirst (alookup "A" ([] : List (String × String)))
          (ofirst (inferColumnType intColData "A") (alookup "A" default_numeric))).getD
          "NVARCHAR(MAX)") :=
  ⟨by decide, by decide, by decide,
    infer_and_resolve_types intColData "A" ["A"] [] (by decide) (by decide) (by decide)⟩

/-! ## C10: text-typed columns in the database sinks -/

theorem mssql_convert_text_null (ct : String) (v : Option Val)
    (hInt : ct ≠ "INT") (hDec : strStartsWith ct "DECIMAL" = false) :
    mssql_convert v ct = SqlParam.null := by
  unfold mssql_convert
  by_cases hv : isSkipVal v = true
  · rw [if_pos hv]
  · rw [if_neg hv, if_neg hInt, if_neg (by rw [hDec]; simp)]

/-- C10 counterexample: for a placeholder value on a text column the MySQL
converter does NOT return the original value unchanged — it returns None,
exactly as the SQL Server sink does. -/
theorem mysql_text_placeholder_null :
    mysql_convert_value_for_db (some (Val.vstr "")) "TEXT" = SqlParam.null ∧
      SqlParam.null ≠ SqlParam.rawP (Val.vstr "") :=
  ⟨by decide, by decide⟩

/-- C10 (amended): whenever the column type is neither INT nor a DECIMAL
type, the SQL Server _convert returns None for every value, so every cell of
a text-typed column is inserted as SQL NULL; the MySQL converter returns the
original value unchanged for such columns only for values outside the
placeholder set (None, the empty string, the dash, N/A) — placeholder values
become NULL in both sinks. -/
theorem mssql_text_columns_null (ct : String) (v : Option Val) (w : Val)
    (data : List Rec) (columns : List String) (tOf : String → String)
    (hInt : ct ≠ "INT") (hDec : strStartsWith ct "DECIMAL" = false)
    (hns : isSkipVal (some w) = false)
    (htOf : columns.all (fun c =>
      !(decide (tOf c = "INT")) && !(strStartsWith (tOf c) "DECIMAL")) = true) :
    mssql_convert v ct = SqlParam.null ∧
      mysql_convert_value_for_db (some w) ct = SqlParam.rawP w ∧
      mssqlInsertRows data columns tOf =
        data.map (fun _ => columns.map (fun _ => SqlParam.null)) := by
  refine ⟨mssql_convert_text_null ct v hInt hDec, ?_, ?_⟩
  · simp only [mysql_convert_value_for_db]
    rw [if_neg (by rw [hns]; simp), if_neg hInt, if_neg (by rw [hDec]; simp)]
  · unfold mssqlInsertRows
    apply List.map_congr_left
    intro row _
    apply List.map_congr_left
    intro c hc
    have hcprop := List.all_eq_true.mp htOf c hc
    rw [Bool.and_eq_true, Bool.not_eq_true', Bool.not_eq_true'] at hcprop
    have hcInt : tOf c ≠ "INT" := by
      intro he
      have := hcprop.1
      rw [he] at this
      simp at this
    exact mssql_convert_text_null (tOf c) (alookup c row) hcInt hcprop.2

/-- Witness for C10 at the default text type NVARCHAR(MAX). -/
theorem mssql_text_columns_null_witness :
    ("NVARCHAR(MAX)" : String) ≠ "INT" ∧
      strStartsWith "NVARCHAR(MAX)" "DECIMAL" = false ∧
      isSkipVal (some (Val.vstr "abc")) = false ∧
      (mssql_convert (some (Val.vstr "abc")) "NVARCHAR(MAX)" = SqlParam.null ∧
        mysql_convert_value_for_db (some (Val.vstr "abc")) "NVARCHAR(MAX)" =
          SqlParam.rawP (Val.vstr "abc") ∧
        mssqlInsertRows [[("B", Val.vstr "x")]] ["B"] (fun _ => "NVARCHAR(MAX)") =
          [[("B", Val.vstr "x")]].map (fun _ => ["B"].map (fun _ => SqlParam.null))) :=
  ⟨by decide, by decide, by decide,
    mssql_text_columns_null "NVARCHAR(MAX)" (some (Val.vstr "abc")) (Val.vstr "abc")
      [[("B", Val.vstr "x")]] ["B"] (fun _ => "NVARCHAR(MAX)")
      (by decide) (by decide) (by decide) (by decide)⟩

end MygaScraper
